import Mathlib

/-!
Runes: reproducer parsing.

A shallow embedding of `internal/parser/parser.go`, `internal/types/types.go`,
the call sequencer of `internal/generator/generator.go`,
`internal/replay/processor.go` and `internal/logger/processor.go` of the Runes
repository, together with the properties of the reproducer decoder, of the
sequencer and of the file batch that the specification states.

Conventions of the embedding.

* A Go `error` is its message, `Option String`; `none` is `nil`.
* A Go function returning `(T, error)` returns a pair, so that what is returned
  next to an error stays visible.
* A Go slice is a `List`; the nil slice and the empty slice are both `[]`.
* A value of type `interface{}` produced by `encoding/json` is a `JSONValue`.
* A `float64` is a finite binary floating point value `F64`.
* The file system and `encoding/json` enter as data: a path has a
  `FileContent`, the bytes seen as `json.Unmarshal` reads them.  What the
  logger prints is left out.
* A Go `string` is a `String`. Lengths and slice bounds are counted in
  characters; the parser only slices the delay magnitude, whose accepted
  spellings are ASCII.
-/

set_option autoImplicit false
set_option maxRecDepth 8192

namespace Runes

/-! ## float64 -/

/-- A finite `float64`, with value `(-1)^neg * mant * 2^exp`.  The values of
binary64 are those with `mant < 2^53` and `-1074 ≤ exp ≤ 971`. -/
structure F64 where
  neg : Bool
  mant : Nat
  exp : Int
deriving DecidableEq, Repr

namespace F64

/-- The value is one that binary64 has. -/
def IsBinary64 (f : F64) : Prop :=
  f.mant < 2 ^ 53 ∧ -1074 ≤ f.exp ∧ f.exp ≤ 971

instance (f : F64) : Decidable f.IsBinary64 := by
  unfold IsBinary64; infer_instance

/-- Rounding `m / 2^k` to the nearest integer, ties to even. -/
def roundHalfEven (m k : Nat) : Nat :=
  let q := m / 2 ^ k
  let r := m % 2 ^ k
  if 2 * r < 2 ^ k then q
  else if 2 * r = 2 ^ k then (if q % 2 = 0 then q else q + 1)
  else q + 1

/-- The magnitude with the fraction discarded. -/
def truncMag (f : F64) : Nat :=
  if 0 ≤ f.exp then f.mant * 2 ^ f.exp.toNat else f.mant / 2 ^ (-f.exp).toNat

/-- The value rounded toward zero, as an unbounded integer. -/
def trunc (f : F64) : Int :=
  if f.neg then -(f.truncMag : Int) else (f.truncMag : Int)

/-- The value, when it is an integer. -/
def toInt? (f : F64) : Option Int :=
  if 0 ≤ f.exp ∨ f.mant % 2 ^ (-f.exp).toNat = 0 then some f.trunc else none

/-- The comparison `f > 0`. -/
def isPos (f : F64) : Bool :=
  !f.neg && decide (0 < f.mant)

/-- The least `k` at or above the given one with `n < 2^k`, searched with the
given number of steps. -/
def bitLengthFrom (n : Nat) : Nat → Nat → Nat
  | 0, k => k
  | steps + 1, k => if n < 2 ^ k then k else bitLengthFrom n steps (k + 1)

/-- The number of binary digits of `n`. -/
def bitLength (n : Nat) : Nat :=
  bitLengthFrom n (n + 1) 0

/-- The float nearest to the natural number `n` (ties to even): what
`strconv.ParseFloat` gives `encoding/json` for the integer literal `n`, for
`n` below the overflow threshold of binary64. -/
def ofNat (n : Nat) : F64 :=
  if n < 2 ^ 53 then ⟨false, n, 0⟩
  else
    let e := bitLength n - 53
    let m := roundHalfEven n e
    if m = 2 ^ 53 then ⟨false, 2 ^ 52, (e : Int) + 1⟩ else ⟨false, m, (e : Int)⟩

/-- The magnitude rounded to an integer, ties to even. -/
def roundMag (f : F64) : Nat :=
  if 0 ≤ f.exp then f.mant * 2 ^ f.exp.toNat else roundHalfEven f.mant (-f.exp).toNat

/-- Go `strconv.FormatFloat(f, 'f', 0, 64)`: the sign bit, then the value
rounded to zero fractional digits, all of its integer digits written out. -/
def formatF0 (f : F64) : String :=
  (if f.neg then "-" else "") ++ toString f.roundMag

end F64

/-! ## Values decoded by encoding/json -/

/-- What `json.Unmarshal` stores in an `interface{}`: `nil`, `bool`,
`float64`, `string`, `[]interface{}` or `map[string]interface{}`.  A map is
the list of its entries; a key is looked up from the front. -/
inductive JSONValue where
  | null
  | bool (b : Bool)
  | number (f : F64)
  | string (s : String)
  | array (xs : List JSONValue)
  | object (kvs : List (String × JSONValue))

/-- Go `m[key]` on a `map[string]interface{}`: the zero value `nil` when the
key is absent. -/
def mapIndex : List (String × JSONValue) → String → JSONValue
  | [], _ => .null
  | (k, v) :: rest, key => if k = key then v else mapIndex rest key

/-- What the Go runtime and the standard library leave open or keep outside
the repository. -/
structure GoEnv where
  /-- The result of `int(f)` when the truncated value is not an `int64`
  (implementation-dependent by the Go specification). -/
  intOverflow : F64 → Int
  /-- The text `fmt` prints for a `float64` under the verb `%v`. -/
  formatG : F64 → String

/-- Go on amd64, where an out-of-range conversion gives the least `int64`.
The rendering of floats under `%v` is left empty: this environment serves to
evaluate inputs in which no float is printed under `%v`. -/
def GoEnv.amd64 : GoEnv :=
  { intOverflow := fun _ => -(2 ^ 63 : Int), formatG := fun _ => "" }

/-- Go `int(f)` for a `float64` on a 64-bit target. -/
def goInt (env : GoEnv) (f : F64) : Int :=
  let t := f.trunc
  if -(2 ^ 63 : Int) ≤ t ∧ t < (2 ^ 63 : Int) then t else env.intOverflow f

/-- Inserting a rendered map entry in key order (the order of Go strings,
compared character by character); an entry whose key is already present is
dropped. -/
def insertEntry (e : String × String) : List (String × String) → List (String × String)
  | [] => [e]
  | x :: rest =>
    if e.1 = x.1 then x :: rest
    else if e.1.data < x.1.data then e :: x :: rest
    else x :: insertEntry e rest

/-- The entries of a map in the order `fmt` prints them: sorted by key. -/
def sortEntries : List (String × String) → List (String × String)
  | [] => []
  | e :: rest => insertEntry e (sortEntries rest)

mutual
/-- Go `fmt.Sprintf("%v", v)` for a decoded JSON value. -/
def sprintV (env : GoEnv) : JSONValue → String
  | .null => "<nil>"
  | .bool b => if b then "true" else "false"
  | .number f => env.formatG f
  | .string s => s
  | .array xs => "[" ++ " ".intercalate (sprintVList env xs) ++ "]"
  | .object kvs =>
    "map[" ++ " ".intercalate ((sortEntries (sprintVEntries env kvs)).map
      (fun e => e.1 ++ ":" ++ e.2)) ++ "]"
/-- The elements of a slice, each under `%v`. -/
def sprintVList (env : GoEnv) : List JSONValue → List String
  | [] => []
  | x :: xs => sprintV env x :: sprintVList env xs
/-- The entries of a map, each value under `%v`. -/
def sprintVEntries (env : GoEnv) : List (String × JSONValue) → List (String × String)
  | [] => []
  | (k, v) :: rest => (k, sprintV env v) :: sprintVEntries env rest
end

/-! ## internal/types/types.go -/

/-- The function call within a transaction. -/
structure Call where
  Contents : List JSONValue
  Tag : String

/-- A single transaction in the reproducer. -/
structure Transaction where
  Call : Call
  Delay : List String
  Dst : String
  Gas : Int
  GasPrice : String
  Src : String
  Value : String

/-- The root structure of an Echidna reproducer file. -/
abbrev EchidnaReproducer := List Transaction

/-- A parsed parameter: Solidity type and value. -/
structure ParsedParam where
  Type_ : String
  Value : String
deriving DecidableEq, Repr

/-- A parsed function call. -/
structure ParsedCall where
  FunctionName : String
  Parameters : List ParsedParam
  Dst : String
  Src : String
  Value : String
  Gas : Int
  GasPrice : String
  HasDelay : Bool
  DelayValue : String
deriving DecidableEq, Repr

/-- The zero value `types.ParsedParam{}`. -/
def ParsedParam.zero : ParsedParam := ⟨"", ""⟩

/-! ## Standard library functions used by the parser -/

/-- Go `strings.HasPrefix(s, p)`. -/
def hasPrefixStr (s p : String) : Bool :=
  p.data.isPrefixOf s.data

/-- Go `s[n:]`. -/
def sliceFrom (s : String) (n : Nat) : String :=
  ⟨s.data.drop n⟩

/-- The value of one digit in `strconv.ParseUint` with base 16: a decimal
digit, or a letter whose lower-case form `c | 0x20` lies in `a..z`, refused
when the value reaches the base. -/
def hexDigit (c : Char) : Option Nat :=
  if 48 ≤ c.toNat ∧ c.toNat ≤ 57 then some (c.toNat - 48)
  else if 97 ≤ (c.toNat ||| 32) ∧ (c.toNat ||| 32) ≤ 122 then
    (if (c.toNat ||| 32) - 97 + 10 < 16 then some ((c.toNat ||| 32) - 97 + 10) else none)
  else none

/-- The digit loop of `strconv.ParseUint(s, 16, 64)`, without the range
check: `none` is a syntax error. -/
def parseHexDigits : List Char → Nat → Option Nat
  | [], acc => some acc
  | c :: cs, acc =>
    match hexDigit c with
    | none => none
    | some d => parseHexDigits cs (acc * 16 + d)

/-- Go `strconv.ParseInt(s, 16, 64)`: `none` when it returns an error (empty
input, a character that is no hexadecimal digit, or a value outside
`int64`). -/
def parseInt16 (s : String) : Option Int :=
  match s.data with
  | [] => none
  | c :: cs =>
    let neg := decide (c = '-')
    let body := if c = '+' ∨ c = '-' then cs else c :: cs
    match body with
    | [] => none
    | _ =>
      match parseHexDigits body 0 with
      | none => none
      | some un =>
        if !neg && decide (2 ^ 63 ≤ un) then none
        else if neg && decide (2 ^ 63 < un) then none
        else some (if neg then -(un : Int) else (un : Int))

/-! ## internal/parser/parser.go -/

/-- Go `parseDelay`. -/
def parseDelay (delay : List String) : Bool × String :=
  if delay.length < 2 then (false, "0")
  else
    let delayHex := delay.headD ""
    if delayHex = "0x0000000000000000000000000000000000000000000000000000000000000000"
        ∨ delayHex = "0x0" then (false, "0")
    else
      let delayHex := if hasPrefixStr delayHex "0x" then sliceFrom delayHex 2 else delayHex
      let delayHex :=
        if delayHex.length > 8 then sliceFrom delayHex (delayHex.length - 8) else delayHex
      match parseInt16 delayHex with
      | none => (false, "0")
      | some delayInt =>
        if delayInt = 0 then (false, "0") else (true, toString delayInt)

/-- Go `parseUintParameter`. -/
def parseUintParameter (env : GoEnv) (contents : List JSONValue) : ParsedParam × Option String :=
  match contents with
  | bitSizeV :: value :: _ =>
    match bitSizeV with
    | .number bitSize =>
      let valueStr :=
        match value with
        | .string v => v
        | .number v => v.formatF0
        | v => sprintV env v
      let solType := "uint" ++ toString (goInt env bitSize)
      (⟨solType, valueStr⟩, none)
    | _ => (ParsedParam.zero, some "uint bit size is not a number")
  | _ => (ParsedParam.zero, some "uint parameter needs at least 2 elements")

/-- Go `parseIntParameter`. -/
def parseIntParameter (env : GoEnv) (contents : List JSONValue) : ParsedParam × Option String :=
  match contents with
  | bitSizeV :: value :: _ =>
    match bitSizeV with
    | .number bitSize =>
      let valueStr :=
        match value with
        | .string v => v
        | .number v => v.formatF0
        | v => sprintV env v
      let solType := "int" ++ toString (goInt env bitSize)
      (⟨solType, valueStr⟩, none)
    | _ => (ParsedParam.zero, some "int bit size is not a number")
  | _ => (ParsedParam.zero, some "int parameter needs at least 2 elements")

/-- Go `parseAddressParameter`. -/
def parseAddressParameter (contents : List JSONValue) : ParsedParam × Option String :=
  match contents with
  | [] => (ParsedParam.zero, some "address parameter has no value")
  | v :: _ =>
    match v with
    | .string value =>
      let value := if !hasPrefixStr value "0x" then "0x" ++ value else value
      (⟨"address", value⟩, none)
    | _ => (ParsedParam.zero, some "address value is not a string")

/-- Go `strconv.FormatBool`. -/
def formatBool (b : Bool) : String :=
  if b then "true" else "false"

/-- Go `parseBoolParameter`. -/
def parseBoolParameter (contents : List JSONValue) : ParsedParam × Option String :=
  match contents with
  | [] => (ParsedParam.zero, some "bool parameter has no value")
  | v :: _ =>
    match v with
    | .bool value => (⟨"bool", formatBool value⟩, none)
    | _ => (ParsedParam.zero, some "bool value is not a boolean")

/-- Go `parseBytesParameter`. -/
def parseBytesParameter (env : GoEnv) (contents : List JSONValue) : ParsedParam × Option String :=
  match contents with
  | sizeV :: valueV :: _ =>
    match sizeV with
    | .number size =>
      match valueV with
      | .string value =>
        let solType := if size.isPos then "bytes" ++ toString (goInt env size) else "bytes"
        (⟨solType, value⟩, none)
      | _ => (ParsedParam.zero, some "bytes value is not a string")
    | _ => (ParsedParam.zero, some "bytes size is not a number")
  | _ => (ParsedParam.zero, some "bytes parameter has insufficient elements")

/-- Go `parseStringParameter`. -/
def parseStringParameter (contents : List JSONValue) : ParsedParam × Option String :=
  match contents with
  | [] => (ParsedParam.zero, some "string parameter has no value")
  | v :: _ =>
    match v with
    | .string value => (⟨"string", "\"" ++ value ++ "\""⟩, none)
    | _ => (ParsedParam.zero, some "string value is not a string")

/-- The dispatch of `parseParameter` once `contents` is known not to be the
bare boolean of an `AbiBool`: `contents` has to be a non-empty array, and the
tag selects the decoder. -/
def parseTagged (env : GoEnv) (tag : String) (contents : JSONValue) :
    ParsedParam × Option String :=
  match contents with
  | .array contentsArray =>
    if contentsArray.length < 1 then
      (ParsedParam.zero, some "parameter contents has insufficient elements")
    else if tag = "AbiUInt" then parseUintParameter env contentsArray
    else if tag = "AbiInt" then parseIntParameter env contentsArray
    else if tag = "AbiAddress" then parseAddressParameter contentsArray
    else if tag = "AbiBool" then parseBoolParameter contentsArray
    else if tag = "AbiBytes" then parseBytesParameter env contentsArray
    else if tag = "AbiString" then parseStringParameter contentsArray
    else (ParsedParam.zero, some ("unsupported ABI type: " ++ tag))
  | _ => (ParsedParam.zero, some ("parameter contents is not an array for type " ++ tag))

/-- Go `parseParameter`. -/
def parseParameter (env : GoEnv) (paramInterface : JSONValue) : ParsedParam × Option String :=
  match paramInterface with
  | .object paramMap =>
    match mapIndex paramMap "tag" with
    | .string tag =>
      let contents := mapIndex paramMap "contents"
      match decide (tag = "AbiBool"), contents with
      | true, .bool boolVal => (⟨"bool", formatBool boolVal⟩, none)
      | _, _ => parseTagged env tag contents
    | _ => (ParsedParam.zero, some "parameter tag is not a string")
  | _ => (ParsedParam.zero, some "parameter is not a map")

/-- The parameter loop of `parseCall`: `params` is the slice built so far; the
first parameter that fails ends the loop with its wrapped error. -/
def parseParams (env : GoEnv) : List JSONValue → List ParsedParam → Except String (List ParsedParam)
  | [], params => .ok params
  | paramInterface :: rest, params =>
    match parseParameter env paramInterface with
    | (param, none) => parseParams env rest (params ++ [param])
    | (_, some err) => .error ("failed to parse parameter: " ++ err)

/-- Go `parseCall`: the pointer result is an `Option`. -/
def parseCall (env : GoEnv) (tx : Transaction) : Option ParsedCall × Option String :=
  if tx.Call.Contents.length < 2 then (none, some "invalid call contents")
  else
    match tx.Call.Contents with
    | .string functionName :: paramsV :: _ =>
      match paramsV with
      | .array paramsInterface =>
        match parseParams env paramsInterface [] with
        | .error err => (none, some err)
        | .ok params =>
          let delay := parseDelay tx.Delay
          (some
            { FunctionName := functionName
              Parameters := params
              Dst := tx.Dst
              Src := tx.Src
              Value := tx.Value
              Gas := tx.Gas
              GasPrice := tx.GasPrice
              HasDelay := delay.1
              DelayValue := delay.2 }, none)
      | _ => (none, some "parameters are not an array")
    | _ => (none, some "function name is not a string")

/-- The loop of `parseTransactions`: `calls` is the slice built so far.  A
failing call returns the nil slice and the wrapped error at once. -/
def parseTransactionsFrom (env : GoEnv) :
    List Transaction → List ParsedCall → List ParsedCall × Option String
  | [], calls => (calls, none)
  | tx :: rest, calls =>
    if tx.Call.Tag = "NoCall" then parseTransactionsFrom env rest calls
    else if tx.Call.Tag ≠ "SolCall" then parseTransactionsFrom env rest calls
    else
      match parseCall env tx with
      | (_, some err) => ([], some ("failed to parse call: " ++ err))
      | (some call, none) => parseTransactionsFrom env rest (calls ++ [call])
      | (none, none) => parseTransactionsFrom env rest calls

/-- Go `parseTransactions`. -/
def parseTransactions (env : GoEnv) (transactions : EchidnaReproducer) :
    List ParsedCall × Option String :=
  parseTransactionsFrom env transactions []

/-! ## Sample inputs -/

/-- A parameter object `{"tag": tag, "contents": contents}`. -/
def taggedParam (tag : String) (contents : JSONValue) : JSONValue :=
  .object [("tag", .string tag), ("contents", contents)]

/-- The transaction of the end-to-end test: `deposit(uint256 1000)`. -/
def sampleDeposit : Transaction :=
  { Call :=
      { Contents :=
          [.string "deposit",
            .array [taggedParam "AbiUInt" (.array [.number ⟨false, 256, 0⟩, .string "1000"])]]
        Tag := "SolCall" }
    Delay := ["0x0", "0x0"]
    Dst := "0x7FA9385bE102ac3EAc297483Dd6233D62b3e1496"
    Gas := 1000000
    GasPrice := "0x0"
    Src := "0x0000000000000000000000000000000000010000"
    Value := "0x0" }

/-- A `withdraw(bool true)` call made thirty seconds later. -/
def sampleWithdraw : Transaction :=
  { Call :=
      { Contents := [.string "withdraw", .array [taggedParam "AbiBool" (.bool true)]]
        Tag := "SolCall" }
    Delay := ["0x1E", "0x0"]
    Dst := "0x7FA9385bE102ac3EAc297483Dd6233D62b3e1496"
    Gas := 1000000
    GasPrice := "0x0"
    Src := "0x0000000000000000000000000000000000020000"
    Value := "0x0" }

/-- A time-delay placeholder. -/
def sampleNoCall : Transaction :=
  { Call := { Contents := [], Tag := "NoCall" }
    Delay := ["0x1E", "0x2"]
    Dst := "0x0"
    Gas := 0
    GasPrice := "0x0"
    Src := "0x0"
    Value := "0x0" }

/-- An entry with a tag the decoder does not know and contents of no
particular shape. -/
def sampleOtherTag : Transaction :=
  { Call := { Contents := [.null, .bool true], Tag := "SolCreate" }
    Delay := ["zz"]
    Dst := ""
    Gas := -1
    GasPrice := ""
    Src := ""
    Value := "" }

/-- A `SolCall` whose contents hold the function name only. -/
def sampleShortCall : Transaction :=
  { Call := { Contents := [.string "deposit"], Tag := "SolCall" }
    Delay := ["0x0", "0x0"]
    Dst := "0x0"
    Gas := 0
    GasPrice := "0x0"
    Src := "0x0"
    Value := "0x0" }

/-- The Solidity type names the specification counts as valid: `address`,
`bool`, `string`, `bytes`, `bytesN` for `1 ≤ N ≤ 32`, and `uintN`, `intN` for
`N` a multiple of 8 between 8 and 256. -/
def validSolTypes : List String :=
  ["address", "bool", "string", "bytes"] ++
    (List.range 32).map (fun i => "bytes" ++ toString (i + 1)) ++
    (List.range 32).map (fun i => "uint" ++ toString (8 * (i + 1))) ++
    (List.range 32).map (fun i => "int" ++ toString (8 * (i + 1)))

/-- The type names `parseParameter` writes: a fixed name, or `bytes`, `uint`
or `int` followed by the decimal of an integer. -/
def SolTypeShape (t : String) : Prop :=
  t = "address" ∨ t = "bool" ∨ t = "string" ∨ t = "bytes" ∨
    ∃ n : Int, t = "bytes" ++ toString n ∨ t = "uint" ++ toString n ∨ t = "int" ++ toString n

/-- The type `parseParameter` writes for a parameter with the given tag and
contents: a fixed name for `AbiAddress`, `AbiBool` and `AbiString`; for
`AbiBytes`, `AbiUInt` and `AbiInt` the number `f` in `contents[0]` decides:
`bytes` for a size not greater than 0, and otherwise `bytes`, `uint` or `int`
followed by the decimal of `int(f)`. -/
def TypeForTag (env : GoEnv) (tag : String) (contents : JSONValue) (t : String) : Prop :=
  (tag = "AbiAddress" ∧ t = "address") ∨ (tag = "AbiBool" ∧ t = "bool") ∨
    (tag = "AbiString" ∧ t = "string") ∨
    ∃ (f : F64) (rest : List JSONValue), contents = .array (.number f :: rest) ∧
      ((tag = "AbiBytes" ∧
          t = if f.isPos then "bytes" ++ toString (goInt env f) else "bytes") ∨
        (tag = "AbiUInt" ∧ t = "uint" ++ toString (goInt env f)) ∨
        (tag = "AbiInt" ∧ t = "int" ++ toString (goInt env f)))

/-! ## Properties of the reproducer decoder -/

/-- The fields a decoded call takes over from its transaction. -/
def CopiedFrom (tx : Transaction) (c : ParsedCall) : Prop :=
  tx.Call.Contents.head? = some (.string c.FunctionName) ∧
    c.Dst = tx.Dst ∧ c.Src = tx.Src ∧ c.Value = tx.Value ∧ c.Gas = tx.Gas ∧
    c.GasPrice = tx.GasPrice

/-- The transactions of a document that are tagged `SolCall`, in document
order. -/
def solCalls (txs : EchidnaReproducer) : List Transaction :=
  txs.filter (fun tx => decide (tx.Call.Tag = "SolCall"))

/-! ## Hexadecimal numerals, as the delay claims speak of them -/

/-- A hexadecimal digit: `0..9`, `a..f` or `A..F`. -/
def IsHexDigit (c : Char) : Prop :=
  (48 ≤ c.toNat ∧ c.toNat ≤ 57) ∨ (97 ≤ c.toNat ∧ c.toNat ≤ 102) ∨
    (65 ≤ c.toNat ∧ c.toNat ≤ 70)

instance (c : Char) : Decidable (IsHexDigit c) := by
  unfold IsHexDigit; infer_instance

/-- The value of a hexadecimal digit. -/
def hexCharValue (c : Char) : Nat :=
  if c.toNat ≤ 57 then c.toNat - 48
  else if 97 ≤ c.toNat then c.toNat - 87
  else c.toNat - 55

/-- The number a string of hexadecimal digits denotes, most significant digit
first. -/
def hexValue (cs : List Char) : Nat :=
  cs.foldl (fun acc c => acc * 16 + hexCharValue c) 0

/-- The text `parseDelay` hands to `strconv.ParseInt`: the first element
without its `0x` prefix, cut to its last 8 characters. -/
def retainedHex (delayHex : String) : String :=
  let stripped := if hasPrefixStr delayHex "0x" then sliceFrom delayHex 2 else delayHex
  if stripped.length > 8 then sliceFrom stripped (stripped.length - 8) else stripped

/-! ## internal/generator/generator.go -/

/-- A call in the template (Go `templateCall`); a field left out of a literal
has its zero value. -/
structure templateCall where
  IsFunctionCall : Bool := false
  FunctionName : String := ""
  ParamList : String := ""
  IsSetUpActor : Bool := false
  ActorAddress : String := ""
  IsDelay : Bool := false
  DelayValue : String := ""
deriving DecidableEq, Repr

/-- Go `mapAddressToActor`. -/
def mapAddressToActor (address : String) : String :=
  if address = "0x0000000000000000000000000000000000010000" then "USER1"
  else if address = "0x0000000000000000000000000000000000020000" then "USER2"
  else if address = "0x0000000000000000000000000000000000030000" then "USER3"
  else "USER1"

/-- The inner loop of `convertToTemplateCalls`: the parameter values appended
one by one to `paramValues`. -/
def paramValues (params : List ParsedParam) : List String :=
  params.foldl (fun acc param => acc ++ [param.Value]) []

/-- Go `strings.Join(elems, sep)`. -/
def stringsJoin (elems : List String) (sep : String) : String :=
  sep.intercalate elems

/-- The loop of `convertToTemplateCalls`, from the state `result`,
`lastActor`. -/
def convertToTemplateCallsFrom :
    List ParsedCall → List templateCall → String → List templateCall
  | [], result, _ => result
  | call :: rest, result, lastActor =>
    let currentActor := mapAddressToActor call.Src
    let switched := decide (currentActor ≠ lastActor)
    let result :=
      if switched then result ++ [{ IsSetUpActor := true, ActorAddress := currentActor }]
      else result
    let lastActor := if switched then currentActor else lastActor
    let result :=
      if call.HasDelay then result ++ [{ IsDelay := true, DelayValue := call.DelayValue }]
      else result
    let result :=
      if call.FunctionName ≠ "" then
        result ++
          [{ IsFunctionCall := true
             FunctionName := call.FunctionName
             ParamList := stringsJoin (paramValues call.Parameters) ", " }]
      else result
    convertToTemplateCallsFrom rest result lastActor

/-- Go `convertToTemplateCalls`: `result` starts nil and `lastActor` empty. -/
def convertToTemplateCalls (calls : List ParsedCall) : List templateCall :=
  convertToTemplateCallsFrom calls [] ""

/-! ## The call sequencer as the specification words it -/

/-- The instructions of the specification. -/
inductive Instruction where
  | ActorSwitch (actorId : String)
  | Delay (seconds : String)
  | Invoke (functionName : String) (args : String)
deriving DecidableEq, Repr

/-- The `templateCall` that stands for an instruction. -/
def Instruction.toTemplateCall : Instruction → templateCall
  | .ActorSwitch actorId => { IsSetUpActor := true, ActorAddress := actorId }
  | .Delay seconds => { IsDelay := true, DelayValue := seconds }
  | .Invoke functionName args =>
    { IsFunctionCall := true, FunctionName := functionName, ParamList := args }

/-- The delay and invoke instructions of one call: `Delay` when the call has a
delay, then `Invoke` with the parameter values joined by `", "` when the
function name is not empty. -/
def callBody (call : ParsedCall) : List Instruction :=
  (if call.HasDelay then [Instruction.Delay call.DelayValue] else []) ++
    (if call.FunctionName ≠ "" then
      [Instruction.Invoke call.FunctionName (", ".intercalate (call.Parameters.map (·.Value)))]
    else [])

/-- The block of one call: an actor switch when the actor of the call differs
from `lastActor`, then the delay, then the invocation. -/
def sequenceBlock (lastActor : Option String) (call : ParsedCall) : List Instruction :=
  (if some (mapAddressToActor call.Src) ≠ lastActor then
      [Instruction.ActorSwitch (mapAddressToActor call.Src)]
    else []) ++ callBody call

/-- The reference sequencer: the blocks of the calls in call order, with
`lastActor` set to the actor of the call after each switch. -/
def sequenceFrom : Option String → List ParsedCall → List Instruction
  | _, [] => []
  | lastActor, call :: rest =>
    sequenceBlock lastActor call ++
      sequenceFrom
        (if some (mapAddressToActor call.Src) ≠ lastActor then
          some (mapAddressToActor call.Src) else lastActor)
        rest

/-- The reference sequencer from `lastActor = none`. -/
def sequenceReference (calls : List ParsedCall) : List Instruction :=
  sequenceFrom none calls

/-- The number of actor switches in a generated sequence. -/
def countActorSwitches (calls : List templateCall) : Nat :=
  (calls.filter (fun c => c.IsSetUpActor)).length

/-- A parsed call of `name` from `src` without parameters or delay. -/
def sampleCall (name src : String) : ParsedCall :=
  { FunctionName := name
    Parameters := []
    Dst := "0x0"
    Src := src
    Value := "0x0"
    Gas := 0
    GasPrice := "0x0"
    HasDelay := false
    DelayValue := "0" }

/-- A `deposit` call of the first known address. -/
def sampleFirst : ParsedCall :=
  sampleCall "deposit" "0x0000000000000000000000000000000000010000"

/-- A `withdraw` call of the first known address. -/
def sampleSecond : ParsedCall :=
  sampleCall "withdraw" "0x0000000000000000000000000000000000010000"

/-- A `claim` call of the second known address. -/
def sampleThird : ParsedCall :=
  sampleCall "claim" "0x0000000000000000000000000000000000020000"

/-- A `claim` call of an address outside the actor table. -/
def sampleStranger : ParsedCall :=
  sampleCall "claim" "0x0000000000000000000000000000000000040000"

/-! ## Reading a reproducer file -/

/-- How `json.Unmarshal(data, &reproducer)` sees the bytes of a file: bytes
that are not valid JSON, or the kind of the top-level value; for an array,
each element comes with the outcome of decoding it into a `Transaction`. -/
inductive JSONDocument where
  | invalid (msg : String)
  | null
  | array (elems : List (Except String Transaction))
  | other (kind : String)

/-- The elements of a top-level array, decoded in order; an element that does
not decode makes the whole call return its error. -/
def decodeElements : List (Except String Transaction) → Except String (List Transaction)
  | [] => .ok []
  | .error msg :: _ => .error msg
  | .ok tx :: rest =>
    match decodeElements rest with
    | .error msg => .error msg
    | .ok txs => .ok (tx :: txs)

/-- Go `json.Unmarshal(data, &reproducer)` for `reproducer` of the slice type
`EchidnaReproducer`: a syntax error for invalid JSON, the nil slice and no
error for `null`, the decoded elements for an array, and a type error for an
object, string, number or boolean. -/
def unmarshalReproducer : JSONDocument → Except String EchidnaReproducer
  | .invalid msg => .error msg
  | .null => .ok []
  | .array elems => decodeElements elems
  | .other kind =>
    .error ("json: cannot unmarshal " ++ kind ++ " into Go value of type types.EchidnaReproducer")

/-- What `os.Open` and `io.ReadAll` give for a path: an error of either, or
the bytes, seen as `encoding/json` reads them. -/
inductive FileContent where
  | openError (msg : String)
  | readError (msg : String)
  | data (doc : JSONDocument)

/-- Go `ParseReproducerFile`, over a file system `fs`. -/
def ParseReproducerFile (env : GoEnv) (fs : String → FileContent) (filepath : String) :
    List ParsedCall × Option String :=
  match fs filepath with
  | .openError err => ([], some ("failed to open file " ++ filepath ++ ": " ++ err))
  | .readError err => ([], some ("failed to read file " ++ filepath ++ ": " ++ err))
  | .data doc =>
    match unmarshalReproducer doc with
    | .error err => ([], some ("failed to parse JSON: " ++ err))
    | .ok reproducer => parseTransactions env reproducer

/-! ## internal/logger/processor.go -/

/-- A file that failed to process. -/
structure FailedFile where
  FileName : String
  Error : String
deriving DecidableEq, Repr

/-- A successfully processed test. -/
structure SuccessTest where
  FileName : String
  TestName : String
  LastFunction : String
  CallCount : Int
deriving DecidableEq, Repr

/-- Statistics about replay processing. -/
structure ProcessingStats where
  TotalFiles : Int
  SuccessCount : Int
  FailureCount : Int
  FailedFiles : List FailedFile
  SuccessTests : List SuccessTest
deriving DecidableEq, Repr

/-- The processor logger; what it prints is left out. -/
structure ProcessorLogger where
  stats : ProcessingStats
deriving DecidableEq, Repr

/-- Go `filepath.Base` with `/` as the separator. -/
def filepathBase (path : String) : String :=
  if path = "" then "."
  else
    let stripped := (path.data.reverse.dropWhile (fun c => c = '/')).reverse
    let last := (stripped.reverse.takeWhile (fun c => c ≠ '/')).reverse
    if last = [] then "/" else ⟨last⟩

/-- Go `NewProcessorLogger`. -/
def NewProcessorLogger : ProcessorLogger :=
  { stats :=
      { TotalFiles := 0, SuccessCount := 0, FailureCount := 0, FailedFiles := [],
        SuccessTests := [] } }

/-- Go `(*ProcessorLogger).LogFileStart`. -/
def ProcessorLogger.LogFileStart (l : ProcessorLogger) (_filePath : String) : ProcessorLogger :=
  { l with stats := { l.stats with TotalFiles := l.stats.TotalFiles + 1 } }

/-- Go `(*ProcessorLogger).LogFileSuccess`. -/
def ProcessorLogger.LogFileSuccess (l : ProcessorLogger)
    (filePath testName lastFunction : String) (callCount : Int) : ProcessorLogger :=
  { l with
    stats :=
      { l.stats with
        SuccessCount := l.stats.SuccessCount + 1
        SuccessTests :=
          l.stats.SuccessTests ++
            [{ FileName := filepathBase filePath
               TestName := testName
               LastFunction := lastFunction
               CallCount := callCount }] } }

/-- Go `(*ProcessorLogger).LogFileFailure`; `err` is the message of the
error. -/
def ProcessorLogger.LogFileFailure (l : ProcessorLogger) (filePath : String) (err : String) :
    ProcessorLogger :=
  { l with
    stats :=
      { l.stats with
        FailureCount := l.stats.FailureCount + 1
        FailedFiles := l.stats.FailedFiles ++ [{ FileName := filepathBase filePath, Error := err }] } }

/-- Go `(*ProcessorLogger).GetStats`. -/
def ProcessorLogger.GetStats (l : ProcessorLogger) : ProcessingStats :=
  l.stats

/-- One of the three logging operations, with its arguments. -/
inductive LogOp where
  | start (filePath : String)
  | success (filePath testName lastFunction : String) (callCount : Int)
  | failure (filePath : String) (err : String)

/-- The logger after an operation. -/
def LogOp.apply (l : ProcessorLogger) : LogOp → ProcessorLogger
  | .start filePath => l.LogFileStart filePath
  | .success filePath testName lastFunction callCount =>
    l.LogFileSuccess filePath testName lastFunction callCount
  | .failure filePath err => l.LogFileFailure filePath err

/-! ## internal/replay/processor.go -/

/-- File information for processing (Go `files.FileInfo`); the modification
time is a number. -/
structure FileInfo where
  Path : String
  ModTime : Int
deriving DecidableEq, Repr

/-- A group of calls that form one test function. -/
structure ReplayGroup where
  TestName : String
  Calls : List ParsedCall
  FileName : String
deriving DecidableEq, Repr

/-- The loop of `GenerateTestFunctionName`, `for i := len(calls) - 1; i >= 0;
i--`, entered with `n = i + 1`: the first call from index `i` downward with a
non-empty name decides; `none` when the loop runs out. -/
def lastNamedCall (calls : List ParsedCall) : Nat → Option String
  | 0 => none
  | i + 1 =>
    match calls[i]? with
    | some call => if call.FunctionName ≠ "" then some call.FunctionName else lastNamedCall calls i
    | none => lastNamedCall calls i

/-- Go `GenerateTestFunctionName`: the pair `(testName, lastFunction)`. -/
def GenerateTestFunctionName (_filePath : String) (number : String) (calls : List ParsedCall) :
    String × String :=
  let testPrefix := if number ≠ "" then "test_replay_" ++ number ++ "_" else "test_replay_"
  let defaultName := testPrefix ++ "default"
  match lastNamedCall calls calls.length with
  | some functionName => (testPrefix ++ functionName, functionName)
  | none => (defaultName, "")

/-- The loop of `ProcessFiles`, from the state `allReplays`, `log`, with
`parse` for `parser.ParseReproducerFile`. -/
def ProcessFilesFrom (parse : String → List ParsedCall × Option String) :
    List FileInfo → List ReplayGroup → ProcessorLogger → List ReplayGroup × ProcessorLogger
  | [], allReplays, log => (allReplays, log)
  | file :: rest, allReplays, log =>
    let log := log.LogFileStart file.Path
    match parse file.Path with
    | (_, some err) => ProcessFilesFrom parse rest allReplays (log.LogFileFailure file.Path err)
    | (calls, none) =>
      if calls.length = 0 then
        ProcessFilesFrom parse rest allReplays
          (log.LogFileFailure file.Path "no valid calls found")
      else
        let replayGroup : ReplayGroup := { TestName := "", Calls := calls, FileName := file.Path }
        let lastFunction := (GenerateTestFunctionName file.Path "" calls).2
        let displayName :=
          if lastFunction ≠ "" then "test_replay_" ++ lastFunction else "test_replay"
        ProcessFilesFrom parse rest (allReplays ++ [replayGroup])
          (log.LogFileSuccess file.Path displayName lastFunction calls.length)

/-- The state of `ProcessFiles` when its loop ends: the groups and the
logger. -/
def ProcessFilesRun (parse : String → List ParsedCall × Option String)
    (replayFiles : List FileInfo) : List ReplayGroup × ProcessorLogger :=
  ProcessFilesFrom parse replayFiles [] NewProcessorLogger

/-- Go `ProcessFiles`. -/
def ProcessFiles (parse : String → List ParsedCall × Option String)
    (replayFiles : List FileInfo) : List ReplayGroup × Option String :=
  let run := ProcessFilesRun parse replayFiles
  if run.1.length = 0 then
    ([], some ("no valid replay files found - all " ++ toString run.2.GetStats.FailureCount ++
      " files failed to process"))
  else (run.1, none)

/-- A file parses to at least one call. -/
def parsesToCalls (parse : String → List ParsedCall × Option String) (file : FileInfo) : Bool :=
  (parse file.Path).2.isNone && !(parse file.Path).1.isEmpty

/-- The group `ProcessFiles` builds for a file. -/
def groupOf (parse : String → List ParsedCall × Option String) (file : FileInfo) : ReplayGroup :=
  { TestName := "", Calls := (parse file.Path).1, FileName := file.Path }

/-! ## Actor sequences -/

/-- A list of actors with each run of equal neighbours collapsed to one, after
the actor `a`. -/
def collapseRunsFrom (a : String) : List String → List String
  | [] => [a]
  | b :: rest => if a ≠ b then a :: collapseRunsFrom b rest else collapseRunsFrom a rest

/-- A list of actors with consecutive duplicates collapsed. -/
def collapseRuns : List String → List String
  | [] => []
  | a :: rest => collapseRunsFrom a rest

/-- The actors named by the actor switches of a generated sequence, in
order. -/
def switchActors (calls : List templateCall) : List String :=
  (calls.filter (fun c => c.IsSetUpActor)).map (fun c => c.ActorAddress)

/-- A file system for the examples: `null.json` holds `null`, `object.json`
holds an object, `empty.json` the empty array, `deposit.json` the document of
the end-to-end test, `broken.json` bytes that are no JSON; other paths do not
open. -/
def sampleFs (path : String) : FileContent :=
  if path = "null.json" then .data .null
  else if path = "object.json" then .data (.other "object")
  else if path = "empty.json" then .data (.array [])
  else if path = "deposit.json" then .data (.array [.ok sampleDeposit])
  else if path = "broken.json" then .data (.invalid "unexpected end of JSON input")
  else .openError "no such file or directory"

/-- Three files to process: one good, one without calls, one broken. -/
def sampleFiles : List FileInfo :=
  [⟨"out/deposit.json", 1⟩, ⟨"out/empty.json", 2⟩, ⟨"out/broken.json", 3⟩]

/-- The parse outcomes of the sample files. -/
def sampleParse (path : String) : List ParsedCall × Option String :=
  ParseReproducerFile GoEnv.amd64 sampleFs (sliceFrom path 4)

theorem parseCall_cases (env : GoEnv) (tx : Transaction) :
    (∃ err, parseCall env tx = (none, some err)) ∨ (∃ c, parseCall env tx = (some c, none)) := by
  unfold parseCall
  split
  · exact Or.inl ⟨_, rfl⟩
  · split
    · split
      · split
        · exact Or.inl ⟨_, rfl⟩
        · exact Or.inr ⟨_, rfl⟩
      · exact Or.inl ⟨_, rfl⟩
    · exact Or.inl ⟨_, rfl⟩

theorem parseCall_copied (env : GoEnv) (tx : Transaction) (c : ParsedCall)
    (h : parseCall env tx = (some c, none)) : CopiedFrom tx c := by
  unfold parseCall at h
  split at h
  · simp at h
  · split at h
    · rename_i functionName paramsV rest hc
      split at h
      · split at h
        · simp at h
        · simp only [Prod.mk.injEq, Option.some.injEq, and_true] at h
          subst h
          simp [CopiedFrom, hc]
      · simp at h
    · simp at h

theorem parseTransactionsFrom_skip (env : GoEnv) (tx : Transaction) (rest : List Transaction)
    (calls : List ParsedCall) (h : tx.Call.Tag ≠ "SolCall") :
    parseTransactionsFrom env (tx :: rest) calls = parseTransactionsFrom env rest calls := by
  simp only [parseTransactionsFrom]
  split
  · rfl
  · simp [h]

theorem parseTransactionsFrom_error (env : GoEnv) (tx : Transaction) (rest : List Transaction)
    (calls : List ParsedCall) (h : tx.Call.Tag = "SolCall") (err : String)
    (he : parseCall env tx = (none, some err)) :
    parseTransactionsFrom env (tx :: rest) calls = ([], some ("failed to parse call: " ++ err)) := by
  have hno : tx.Call.Tag ≠ "NoCall" := by rw [h]; decide
  simp [parseTransactionsFrom, hno, h, he]

theorem parseTransactionsFrom_call (env : GoEnv) (tx : Transaction) (rest : List Transaction)
    (calls : List ParsedCall) (h : tx.Call.Tag = "SolCall") (c : ParsedCall)
    (he : parseCall env tx = (some c, none)) :
    parseTransactionsFrom env (tx :: rest) calls =
      parseTransactionsFrom env rest (calls ++ [c]) := by
  have hno : tx.Call.Tag ≠ "NoCall" := by rw [h]; decide
  simp [parseTransactionsFrom, hno, h, he]

/-- When every `SolCall` transaction decodes, the loop returns the calls built
so far followed by the decoded calls, in order. -/
theorem parseTransactionsFrom_ok (env : GoEnv) :
    ∀ (txs : List Transaction) (calls : List ParsedCall),
      (∀ tx ∈ txs, tx.Call.Tag = "SolCall" → (parseCall env tx).2 = none) →
      parseTransactionsFrom env txs calls =
        (calls ++ (solCalls txs).filterMap (fun tx => (parseCall env tx).1), none) := by
  intro txs
  induction txs with
  | nil => intro calls _; simp [parseTransactionsFrom, solCalls]
  | cons tx rest ih =>
    intro calls h
    have hrest : ∀ t ∈ rest, t.Call.Tag = "SolCall" → (parseCall env t).2 = none :=
      fun t ht => h t (List.mem_cons_of_mem _ ht)
    by_cases hs : tx.Call.Tag = "SolCall"
    · rcases parseCall_cases env tx with ⟨err, he⟩ | ⟨c, he⟩
      · have := h tx (List.mem_cons_self _ _) hs
        simp [he] at this
      · rw [parseTransactionsFrom_call env tx rest calls hs c he, ih _ hrest]
        simp [solCalls, hs, he]
    · rw [parseTransactionsFrom_skip env tx rest calls hs, ih _ hrest]
      simp [solCalls, hs]

/-- When some `SolCall` transaction does not decode, the loop returns the nil
slice and an error, whatever had been built. -/
theorem parseTransactionsFrom_fail (env : GoEnv) :
    ∀ (txs : List Transaction) (calls : List ParsedCall),
      (∃ tx ∈ txs, tx.Call.Tag = "SolCall" ∧ (parseCall env tx).2 ≠ none) →
      (parseTransactionsFrom env txs calls).1 = [] ∧
        (parseTransactionsFrom env txs calls).2 ≠ none := by
  intro txs
  induction txs with
  | nil => intro calls h; simp at h
  | cons tx rest ih =>
    intro calls h
    by_cases hs : tx.Call.Tag = "SolCall"
    · rcases parseCall_cases env tx with ⟨err, he⟩ | ⟨c, he⟩
      · rw [parseTransactionsFrom_error env tx rest calls hs err he]
        simp
      · rw [parseTransactionsFrom_call env tx rest calls hs c he]
        apply ih
        obtain ⟨t, ht, hts, hte⟩ := h
        rcases List.mem_cons.mp ht with rfl | ht
        · simp [he] at hte
        · exact ⟨t, ht, hts, hte⟩
    · rw [parseTransactionsFrom_skip env tx rest calls hs]
      apply ih
      obtain ⟨t, ht, hts, hte⟩ := h
      rcases List.mem_cons.mp ht with rfl | ht
      · exact absurd hts hs
      · exact ⟨t, ht, hts, hte⟩

theorem forall₂_filterMap {α β : Type} (R : α → β → Prop) (f : α → Option β) :
    ∀ l : List α, (∀ x ∈ l, ∃ y, f x = some y ∧ R x y) → List.Forall₂ R l (l.filterMap f) := by
  intro l
  induction l with
  | nil => intro _; simp
  | cons x rest ih =>
    intro h
    obtain ⟨y, hy, hR⟩ := h x (List.mem_cons_self _ _)
    rw [List.filterMap_cons_some hy]
    exact List.Forall₂.cons hR (ih (fun z hz => h z (List.mem_cons_of_mem _ hz)))

/-! ## Claims on `parseTransactions` and `parseCall` -/

theorem parseTransactions_fail (env : GoEnv) (txs : EchidnaReproducer)
    (h : ∃ tx ∈ txs, tx.Call.Tag = "SolCall" ∧ (parseCall env tx).2 ≠ none) :
    (parseTransactions env txs).2 ≠ none ∧ (parseTransactions env txs).1 = [] :=
  (parseTransactionsFrom_fail env txs [] h).symm

theorem parseTransactions_ok_iff (env : GoEnv) (txs : EchidnaReproducer) :
    (parseTransactions env txs).2 = none ↔
      ∀ tx ∈ txs, tx.Call.Tag = "SolCall" → (parseCall env tx).2 = none := by
  constructor
  · intro hok tx htx hs
    by_contra hne
    exact (parseTransactions_fail env txs ⟨tx, htx, hs, hne⟩).1 hok
  · intro h
    simp [parseTransactions, parseTransactionsFrom_ok env txs [] h]

/-- C1: `parseTransactions` returns no error exactly when `parseCall` decodes
every transaction tagged `SolCall`; when one of them fails, the result is an
error together with the nil call list, so that no call decoded earlier is
returned. -/
theorem parseTransactions_succeeds_iff (env : GoEnv) (txs : EchidnaReproducer) :
    ((parseTransactions env txs).2 = none ↔
        ∀ tx ∈ txs, tx.Call.Tag = "SolCall" → (parseCall env tx).2 = none) ∧
      ((∃ tx ∈ txs, tx.Call.Tag = "SolCall" ∧ (parseCall env tx).2 ≠ none) →
        (parseTransactions env txs).2 ≠ none ∧ (parseTransactions env txs).1 = []) :=
  ⟨parseTransactions_ok_iff env txs, parseTransactions_fail env txs⟩

/-- C2: on every document on which `parseTransactions` succeeds, the output
has one call per `SolCall` transaction, in document order, and each call
carries the function name, `dst`, `src`, `value`, `gas` and `gasPrice` of its
transaction. -/
theorem parseTransactions_calls_in_order (env : GoEnv) (txs : EchidnaReproducer)
    (h : (parseTransactions env txs).2 = none) :
    (parseTransactions env txs).1.length = (solCalls txs).length ∧
      List.Forall₂ CopiedFrom (solCalls txs) (parseTransactions env txs).1 := by
  have hall := (parseTransactions_ok_iff env txs).mp h
  have hF : List.Forall₂ CopiedFrom (solCalls txs) (parseTransactions env txs).1 := by
    simp only [parseTransactions, parseTransactionsFrom_ok env txs [] hall, List.nil_append]
    apply forall₂_filterMap
    intro tx htx
    have hm : tx ∈ txs ∧ tx.Call.Tag = "SolCall" := by
      simpa [solCalls] using htx
    rcases parseCall_cases env tx with ⟨err, he⟩ | ⟨c, he⟩
    · have := hall tx hm.1 hm.2
      simp [he] at this
    · exact ⟨c, by simp [he], parseCall_copied env tx c he⟩
  exact ⟨hF.length_eq.symm, hF⟩

theorem parseTransactions_calls_in_order_witness :
    (parseTransactions GoEnv.amd64 [sampleDeposit, sampleNoCall, sampleWithdraw]).2 = none ∧
      (parseTransactions GoEnv.amd64 [sampleDeposit, sampleNoCall, sampleWithdraw]).1.length =
        (solCalls [sampleDeposit, sampleNoCall, sampleWithdraw]).length ∧
      List.Forall₂ CopiedFrom (solCalls [sampleDeposit, sampleNoCall, sampleWithdraw])
        (parseTransactions GoEnv.amd64 [sampleDeposit, sampleNoCall, sampleWithdraw]).1 :=
  ⟨by decide, parseTransactions_calls_in_order GoEnv.amd64 _ (by decide)⟩

/-- C3: a document without any transaction tagged `SolCall` decodes to the
empty call list and no error, whatever the contents and delay fields of its
entries hold. -/
theorem parseTransactions_no_solCall (env : GoEnv) (txs : EchidnaReproducer)
    (h : ∀ tx ∈ txs, tx.Call.Tag ≠ "SolCall") :
    parseTransactions env txs = ([], none) := by
  have hall : ∀ tx ∈ txs, tx.Call.Tag = "SolCall" → (parseCall env tx).2 = none :=
    fun tx htx hs => absurd hs (h tx htx)
  have hnil : solCalls txs = [] := by
    simp only [solCalls, List.filter_eq_nil_iff]
    intro tx htx
    simpa using h tx htx
  simp [parseTransactions, parseTransactionsFrom_ok env txs [] hall, hnil]

theorem parseTransactions_no_solCall_witness :
    (∀ tx ∈ [sampleNoCall, sampleOtherTag], tx.Call.Tag ≠ "SolCall") ∧
      parseTransactions GoEnv.amd64 [sampleNoCall, sampleOtherTag] = ([], none) :=
  ⟨by simp [sampleNoCall, sampleOtherTag],
    parseTransactions_no_solCall GoEnv.amd64 _ (by simp [sampleNoCall, sampleOtherTag])⟩

/-- C4: `parseCall` fails on a transaction tagged `SolCall` whose
`call.contents` has fewer than 2 elements, and `parseTransactions` fails on
every document that contains such a transaction. -/
theorem parseCall_short_contents (env : GoEnv) (tx : Transaction)
    (hs : tx.Call.Tag = "SolCall") (hlen : tx.Call.Contents.length < 2) :
    parseCall env tx = (none, some "invalid call contents") ∧
      ∀ txs : EchidnaReproducer, tx ∈ txs →
        (parseTransactions env txs).2 ≠ none ∧ (parseTransactions env txs).1 = [] := by
  have hc : parseCall env tx = (none, some "invalid call contents") := by
    simp [parseCall, hlen]
  refine ⟨hc, fun txs htx => ?_⟩
  exact parseTransactions_fail env txs ⟨tx, htx, hs, by simp [hc]⟩

theorem parseCall_short_contents_witness :
    sampleShortCall.Call.Tag = "SolCall" ∧ sampleShortCall.Call.Contents.length < 2 ∧
      parseCall GoEnv.amd64 sampleShortCall = (none, some "invalid call contents") ∧
      ∀ txs : EchidnaReproducer, sampleShortCall ∈ txs →
        (parseTransactions GoEnv.amd64 txs).2 ≠ none ∧
          (parseTransactions GoEnv.amd64 txs).1 = [] :=
  ⟨by decide, by decide, parseCall_short_contents GoEnv.amd64 sampleShortCall (by decide) (by decide)⟩

/-! ## Claims on `parseParameter` -/

theorem parseParameter_bareBool (env : GoEnv) (m : List (String × JSONValue)) (b : Bool)
    (ht : mapIndex m "tag" = .string "AbiBool") (hc : mapIndex m "contents" = .bool b) :
    parseParameter env (.object m) = (⟨"bool", formatBool b⟩, none) := by
  simp [parseParameter, ht, hc]

theorem parseParameter_array (env : GoEnv) (m : List (String × JSONValue)) (tag : String)
    (cs : List JSONValue) (ht : mapIndex m "tag" = .string tag)
    (hc : mapIndex m "contents" = .array cs) :
    parseParameter env (.object m) = parseTagged env tag (.array cs) := by
  simp only [parseParameter, ht, hc]
  split
  · rename_i h1 h2; simp at h2
  · rfl

theorem parseParameter_object (env : GoEnv) (m : List (String × JSONValue)) (tag : String)
    (ht : mapIndex m "tag" = .string tag) :
    (∃ b, parseParameter env (.object m) = (⟨"bool", formatBool b⟩, none)) ∨
      parseParameter env (.object m) = parseTagged env tag (mapIndex m "contents") := by
  simp only [parseParameter, ht]
  split
  · exact Or.inl ⟨_, rfl⟩
  · exact Or.inr rfl

theorem goInt_of_range (env : GoEnv) (b : F64) (hlo : -(2 ^ 63 : Int) ≤ b.trunc)
    (hhi : b.trunc < (2 ^ 63 : Int)) : goInt env b = b.trunc := by
  unfold goInt
  exact if_pos ⟨hlo, hhi⟩

theorem toInt?_eq_some (b : F64) (w : Int) (h : b.toInt? = some w) : b.trunc = w := by
  unfold F64.toInt? at h
  split at h
  · simpa using h
  · simp at h

/-- C5, amended: for a bit width that is an integer `w` of the `int64` range
and a string `v`, `parseParameter` on an `AbiUInt` (`AbiInt`) parameter with
contents `[w, v]` succeeds with type `uint` (`int`) followed by the decimal of
`w` and with value `v` unchanged. -/
theorem parseParameter_uint_int (env : GoEnv) (m : List (String × JSONValue))
    (tag pre : String) (b : F64) (w : Int) (v : String)
    (hk : (tag = "AbiUInt" ∧ pre = "uint") ∨ (tag = "AbiInt" ∧ pre = "int"))
    (ht : mapIndex m "tag" = .string tag)
    (hc : mapIndex m "contents" = .array [.number b, .string v])
    (hw : b.toInt? = some w) (hlo : -(2 ^ 63 : Int) ≤ w) (hhi : w < (2 ^ 63 : Int)) :
    parseParameter env (.object m) = (⟨pre ++ toString w, v⟩, none) := by
  have hb := toInt?_eq_some b w hw
  subst hb
  rw [parseParameter_array env m tag _ ht hc]
  rcases hk with ⟨rfl, rfl⟩ | ⟨rfl, rfl⟩
  · simp [parseTagged, parseUintParameter, goInt_of_range env b hlo hhi]
  · simp [parseTagged, parseIntParameter, goInt_of_range env b hlo hhi]

theorem parseParameter_uint_int_witness :
    (("AbiUInt" = "AbiUInt" ∧ "uint" = "uint") ∨ ("AbiUInt" = "AbiInt" ∧ "uint" = "int")) ∧
      (⟨false, 256, 0⟩ : F64).toInt? = some 256 ∧
      parseParameter GoEnv.amd64
          (taggedParam "AbiUInt" (.array [.number ⟨false, 256, 0⟩, .string "1000"])) =
        (⟨"uint256", "1000"⟩, none) :=
  ⟨by decide, by decide,
    parseParameter_uint_int GoEnv.amd64 _ "AbiUInt" "uint" ⟨false, 256, 0⟩ 256 "1000"
      (by decide) rfl rfl (by decide) (by decide) (by decide)⟩

/-- C5, counterexample: the bit width `2^63`, a value of binary64, does not
fit the `int` the code converts it to; on amd64 the type name comes out as
`uint-9223372036854775808`, which is not `uint` followed by the decimal of
`2^63`. -/
theorem parseParameter_uint_width_overflow :
    (⟨false, 2 ^ 52, 11⟩ : F64).IsBinary64 ∧
      (⟨false, 2 ^ 52, 11⟩ : F64).toInt? = some (2 ^ 63) ∧
      parseParameter GoEnv.amd64
          (taggedParam "AbiUInt" (.array [.number ⟨false, 2 ^ 52, 11⟩, .string "1"])) =
        (⟨"uint-9223372036854775808", "1"⟩, none) ∧
      "uint-9223372036854775808" ≠ "uint" ++ toString ((2 : Int) ^ 63) := by
  refine ⟨by decide, by decide, by decide, by decide⟩

/-- C6, at the failing input: the numeric literal `9007199254740993`
(`2^53 + 1`) in the value position reaches the parser as the nearest
`float64`, and the decoded value is `9007199254740992`; likewise
`2^256 - 1` comes out as `2^256`. -/
theorem parseParameter_numeric_literal_rounded :
    parseParameter GoEnv.amd64
        (taggedParam "AbiUInt"
          (.array [.number (F64.ofNat 256), .number (F64.ofNat 9007199254740993)])) =
      (⟨"uint256", "9007199254740992"⟩, none) ∧
    parseParameter GoEnv.amd64
        (taggedParam "AbiInt"
          (.array [.number (F64.ofNat 256), .number (F64.ofNat 9007199254740993)])) =
      (⟨"int256", "9007199254740992"⟩, none) ∧
    parseParameter GoEnv.amd64
        (taggedParam "AbiUInt"
          (.array [.number (F64.ofNat 256), .number (F64.ofNat (2 ^ 256 - 1))])) =
      (⟨"uint256", toString ((2 : Nat) ^ 256)⟩, none) := by
  refine ⟨by decide, by decide, by decide⟩

/-- C7: for every boolean `b`, `parseParameter` on an `AbiBool` parameter
gives the same result for the bare boolean `b` and for the one-element array
`[b]`: type `bool` and value `true` or `false`. -/
theorem parseParameter_bool (env : GoEnv) (m₁ m₂ : List (String × JSONValue)) (b : Bool)
    (ht₁ : mapIndex m₁ "tag" = .string "AbiBool") (hc₁ : mapIndex m₁ "contents" = .bool b)
    (ht₂ : mapIndex m₂ "tag" = .string "AbiBool")
    (hc₂ : mapIndex m₂ "contents" = .array [.bool b]) :
    parseParameter env (.object m₁) = (⟨"bool", if b then "true" else "false"⟩, none) ∧
      parseParameter env (.object m₂) = parseParameter env (.object m₁) := by
  rw [parseParameter_bareBool env m₁ b ht₁ hc₁, parseParameter_array env m₂ _ _ ht₂ hc₂]
  simp [parseTagged, parseBoolParameter, formatBool]

theorem parseParameter_bool_witness :
    parseParameter GoEnv.amd64 (taggedParam "AbiBool" (.bool true)) =
        (⟨"bool", "true"⟩, none) ∧
      parseParameter GoEnv.amd64 (taggedParam "AbiBool" (.array [.bool true])) =
        parseParameter GoEnv.amd64 (taggedParam "AbiBool" (.bool true)) :=
  parseParameter_bool GoEnv.amd64 _ _ true rfl rfl rfl rfl

/-- C8: for a tag other than the six ABI tags, `parseParameter` fails
whatever the contents are, and returns the zero `ParsedParam` next to the
error. -/
theorem parseParameter_unknown_tag (env : GoEnv) (m : List (String × JSONValue)) (tag : String)
    (ht : mapIndex m "tag" = .string tag)
    (hne : tag ∉ ["AbiUInt", "AbiInt", "AbiAddress", "AbiBool", "AbiBytes", "AbiString"]) :
    (parseParameter env (.object m)).2 ≠ none ∧
      (parseParameter env (.object m)).1 = ParsedParam.zero := by
  simp only [List.mem_cons, List.mem_singleton, List.not_mem_nil, or_false, not_or] at hne
  obtain ⟨h1, h2, h3, h4, h5, h6⟩ := hne
  simp only [parseParameter, ht, h4, decide_False]
  unfold parseTagged
  split
  · split
    · simp
    · simp [h1, h2, h3, h4, h5, h6]
  · simp

theorem parseParameter_unknown_tag_witness :
    "AbiTuple" ∉ ["AbiUInt", "AbiInt", "AbiAddress", "AbiBool", "AbiBytes", "AbiString"] ∧
      (parseParameter GoEnv.amd64 (taggedParam "AbiTuple" (.array [.bool true]))).2 ≠ none ∧
      (parseParameter GoEnv.amd64 (taggedParam "AbiTuple" (.array [.bool true]))).1 =
        ParsedParam.zero :=
  ⟨by decide, parseParameter_unknown_tag GoEnv.amd64 _ "AbiTuple" rfl (by decide)⟩

/-- C9, amended: for an `AbiUInt` (`AbiInt`) parameter with contents `[w, v]`
where `v` is neither a number nor a string, `parseParameter` succeeds: the
type is `uint` (`int`) followed by the converted width and the value is the
`%v` rendering of `v`. -/
theorem parseParameter_uint_int_other_value (env : GoEnv) (m : List (String × JSONValue))
    (tag pre : String) (w : F64) (v : JSONValue)
    (hk : (tag = "AbiUInt" ∧ pre = "uint") ∨ (tag = "AbiInt" ∧ pre = "int"))
    (ht : mapIndex m "tag" = .string tag)
    (hc : mapIndex m "contents" = .array [.number w, v])
    (hn : ∀ f, v ≠ .number f) (hs : ∀ s, v ≠ .string s) :
    parseParameter env (.object m) =
      (⟨pre ++ toString (goInt env w), sprintV env v⟩, none) := by
  rw [parseParameter_array env m tag _ ht hc]
  rcases hk with ⟨rfl, rfl⟩ | ⟨rfl, rfl⟩
  · cases v with
    | number f => exact absurd rfl (hn f)
    | string s => exact absurd rfl (hs s)
    | _ => simp [parseTagged, parseUintParameter]
  · cases v with
    | number f => exact absurd rfl (hn f)
    | string s => exact absurd rfl (hs s)
    | _ => simp [parseTagged, parseIntParameter]

theorem parseParameter_uint_int_other_value_witness :
    (∀ f, JSONValue.null ≠ .number f) ∧ (∀ s, JSONValue.null ≠ .string s) ∧
      parseParameter GoEnv.amd64
          (taggedParam "AbiInt" (.array [.number ⟨false, 8, 0⟩, .null])) =
        (⟨"int" ++ toString (goInt GoEnv.amd64 ⟨false, 8, 0⟩), sprintV GoEnv.amd64 .null⟩,
          none) :=
  ⟨fun _ h => JSONValue.noConfusion h, fun _ h => JSONValue.noConfusion h,
    parseParameter_uint_int_other_value GoEnv.amd64 _ "AbiInt" "int" ⟨false, 8, 0⟩ .null
      (Or.inr ⟨rfl, rfl⟩) rfl rfl (fun _ h => JSONValue.noConfusion h)
      (fun _ h => JSONValue.noConfusion h)⟩

/-- C9, counterexample: with the boolean `true` (or `null`) in the value
position of an `AbiUInt` parameter, `parseParameter` returns no error and
emits the literal `true` (or `<nil>`). -/
theorem parseParameter_uint_bool_value_accepted :
    parseParameter GoEnv.amd64
        (taggedParam "AbiUInt" (.array [.number ⟨false, 256, 0⟩, .bool true])) =
      (⟨"uint256", "true"⟩, none) ∧
    parseParameter GoEnv.amd64
        (taggedParam "AbiUInt" (.array [.number ⟨false, 256, 0⟩, .null])) =
      (⟨"uint256", "<nil>"⟩, none) := by
  refine ⟨by decide, by decide⟩

theorem parseUintParameter_shape (env : GoEnv) (cs : List JSONValue)
    (h : (parseUintParameter env cs).2 = none) :
    SolTypeShape (parseUintParameter env cs).1.Type_ := by
  unfold parseUintParameter at h ⊢
  split
  · split
    · exact Or.inr (Or.inr (Or.inr (Or.inr ⟨_, Or.inr (Or.inl rfl)⟩)))
    · simp_all
  · simp_all

theorem parseIntParameter_shape (env : GoEnv) (cs : List JSONValue)
    (h : (parseIntParameter env cs).2 = none) :
    SolTypeShape (parseIntParameter env cs).1.Type_ := by
  unfold parseIntParameter at h ⊢
  split
  · split
    · exact Or.inr (Or.inr (Or.inr (Or.inr ⟨_, Or.inr (Or.inr rfl)⟩)))
    · simp_all
  · simp_all

theorem parseBytesParameter_shape (env : GoEnv) (cs : List JSONValue)
    (h : (parseBytesParameter env cs).2 = none) :
    SolTypeShape (parseBytesParameter env cs).1.Type_ := by
  unfold parseBytesParameter at h ⊢
  split
  · split
    · split
      · rename_i size _ _
        by_cases hp : size.isPos = true
        · simp only [hp, if_true]
          exact Or.inr (Or.inr (Or.inr (Or.inr ⟨_, Or.inl rfl⟩)))
        · simp only [hp]
          exact Or.inr (Or.inr (Or.inr (Or.inl rfl)))
      · simp_all
    · simp_all
  · simp_all

theorem parseAddressParameter_shape (cs : List JSONValue)
    (h : (parseAddressParameter cs).2 = none) :
    SolTypeShape (parseAddressParameter cs).1.Type_ := by
  unfold parseAddressParameter at h ⊢
  split
  · simp_all
  · split
    · exact Or.inl rfl
    · simp_all

theorem parseBoolParameter_shape (cs : List JSONValue)
    (h : (parseBoolParameter cs).2 = none) :
    SolTypeShape (parseBoolParameter cs).1.Type_ := by
  unfold parseBoolParameter at h ⊢
  split
  · simp_all
  · split
    · exact Or.inr (Or.inl rfl)
    · simp_all

theorem parseStringParameter_shape (cs : List JSONValue)
    (h : (parseStringParameter cs).2 = none) :
    SolTypeShape (parseStringParameter cs).1.Type_ := by
  unfold parseStringParameter at h ⊢
  split
  · simp_all
  · split
    · exact Or.inr (Or.inr (Or.inl rfl))
    · simp_all

theorem parseTagged_shape (env : GoEnv) (tag : String) (contents : JSONValue)
    (h : (parseTagged env tag contents).2 = none) :
    SolTypeShape (parseTagged env tag contents).1.Type_ := by
  unfold parseTagged at h ⊢
  split
  · split
    · simp_all
    · rename_i hlen
      simp only [hlen, if_false] at h
      split
      · simp_all [parseUintParameter_shape]
      · split
        · simp_all [parseIntParameter_shape]
        · split
          · simp_all [parseAddressParameter_shape]
          · split
            · simp_all [parseBoolParameter_shape]
            · split
              · simp_all [parseBytesParameter_shape]
              · split
                · simp_all [parseStringParameter_shape]
                · simp_all
  · simp_all

theorem parseParameter_solTypeShape (env : GoEnv) (p : JSONValue)
    (h : (parseParameter env p).2 = none) :
    SolTypeShape (parseParameter env p).1.Type_ := by
  cases p with
  | object m =>
    cases ht : mapIndex m "tag" with
    | string tag =>
      rcases parseParameter_object env m tag ht with ⟨b, hb⟩ | ht2
      · rw [hb]; exact Or.inr (Or.inl rfl)
      · rw [ht2] at h ⊢
        exact parseTagged_shape env _ _ h
    | _ => simp [parseParameter, ht] at h
  | _ => simp [parseParameter] at h

theorem parseUintParameter_type (env : GoEnv) (cs : List JSONValue)
    (h : (parseUintParameter env cs).2 = none) :
    ∃ (f : F64) (rest : List JSONValue), cs = .number f :: rest ∧
      (parseUintParameter env cs).1.Type_ = "uint" ++ toString (goInt env f) := by
  unfold parseUintParameter at h ⊢
  split
  · split
    · exact ⟨_, _, rfl, rfl⟩
    · simp_all
  · simp_all

theorem parseIntParameter_type (env : GoEnv) (cs : List JSONValue)
    (h : (parseIntParameter env cs).2 = none) :
    ∃ (f : F64) (rest : List JSONValue), cs = .number f :: rest ∧
      (parseIntParameter env cs).1.Type_ = "int" ++ toString (goInt env f) := by
  unfold parseIntParameter at h ⊢
  split
  · split
    · exact ⟨_, _, rfl, rfl⟩
    · simp_all
  · simp_all

theorem parseBytesParameter_type (env : GoEnv) (cs : List JSONValue)
    (h : (parseBytesParameter env cs).2 = none) :
    ∃ (f : F64) (rest : List JSONValue), cs = .number f :: rest ∧
      (parseBytesParameter env cs).1.Type_ =
        if f.isPos then "bytes" ++ toString (goInt env f) else "bytes" := by
  unfold parseBytesParameter at h ⊢
  split
  · split
    · split
      · exact ⟨_, _, rfl, rfl⟩
      · simp_all
    · simp_all
  · simp_all

theorem parseAddressParameter_type (cs : List JSONValue)
    (h : (parseAddressParameter cs).2 = none) :
    (parseAddressParameter cs).1.Type_ = "address" := by
  unfold parseAddressParameter at h ⊢
  split
  · simp_all
  · split
    · rfl
    · simp_all

theorem parseBoolParameter_type (cs : List JSONValue)
    (h : (parseBoolParameter cs).2 = none) :
    (parseBoolParameter cs).1.Type_ = "bool" := by
  unfold parseBoolParameter at h ⊢
  split
  · simp_all
  · split
    · rfl
    · simp_all

theorem parseStringParameter_type (cs : List JSONValue)
    (h : (parseStringParameter cs).2 = none) :
    (parseStringParameter cs).1.Type_ = "string" := by
  unfold parseStringParameter at h ⊢
  split
  · simp_all
  · split
    · rfl
    · simp_all

theorem parseTagged_type (env : GoEnv) (tag : String) (contents : JSONValue)
    (h : (parseTagged env tag contents).2 = none) :
    TypeForTag env tag contents (parseTagged env tag contents).1.Type_ := by
  cases contents with
  | array cs =>
    by_cases hlen : cs.length < 1
    · simp [parseTagged, hlen] at h
    · by_cases h1 : tag = "AbiUInt"
      · subst h1
        have he : parseTagged env "AbiUInt" (.array cs) = parseUintParameter env cs := by
          simp [parseTagged, hlen]
        rw [he] at h ⊢
        obtain ⟨f, rest, hcs, ht⟩ := parseUintParameter_type env cs h
        exact Or.inr (Or.inr (Or.inr ⟨f, rest, by rw [hcs], Or.inr (Or.inl ⟨rfl, ht⟩)⟩))
      · by_cases h2 : tag = "AbiInt"
        · subst h2
          have he : parseTagged env "AbiInt" (.array cs) = parseIntParameter env cs := by
            simp [parseTagged, hlen]
          rw [he] at h ⊢
          obtain ⟨f, rest, hcs, ht⟩ := parseIntParameter_type env cs h
          exact Or.inr (Or.inr (Or.inr ⟨f, rest, by rw [hcs], Or.inr (Or.inr ⟨rfl, ht⟩)⟩))
        · by_cases h3 : tag = "AbiAddress"
          · subst h3
            have he : parseTagged env "AbiAddress" (.array cs) = parseAddressParameter cs := by
              simp [parseTagged, hlen]
            rw [he] at h ⊢
            exact Or.inl ⟨rfl, parseAddressParameter_type cs h⟩
          · by_cases h4 : tag = "AbiBool"
            · subst h4
              have he : parseTagged env "AbiBool" (.array cs) = parseBoolParameter cs := by
                simp [parseTagged, hlen]
              rw [he] at h ⊢
              exact Or.inr (Or.inl ⟨rfl, parseBoolParameter_type cs h⟩)
            · by_cases h5 : tag = "AbiBytes"
              · subst h5
                have he : parseTagged env "AbiBytes" (.array cs) =
                    parseBytesParameter env cs := by
                  simp [parseTagged, hlen]
                rw [he] at h ⊢
                obtain ⟨f, rest, hcs, ht⟩ := parseBytesParameter_type env cs h
                exact Or.inr (Or.inr (Or.inr ⟨f, rest, by rw [hcs], Or.inl ⟨rfl, ht⟩⟩))
              · by_cases h6 : tag = "AbiString"
                · subst h6
                  have he : parseTagged env "AbiString" (.array cs) =
                      parseStringParameter cs := by
                    simp [parseTagged, hlen]
                  rw [he] at h ⊢
                  exact Or.inr (Or.inr (Or.inl ⟨rfl, parseStringParameter_type cs h⟩))
                · simp [parseTagged, hlen, h1, h2, h3, h4, h5, h6] at h
  | _ => simp [parseTagged] at h

theorem parseParameter_object_cases (env : GoEnv) (m : List (String × JSONValue))
    (tag : String) (ht : mapIndex m "tag" = .string tag) :
    (tag = "AbiBool" ∧ ∃ b, parseParameter env (.object m) = (⟨"bool", formatBool b⟩, none)) ∨
      parseParameter env (.object m) = parseTagged env tag (mapIndex m "contents") := by
  by_cases hb : tag = "AbiBool"
  · subst hb
    cases hc : mapIndex m "contents" with
    | bool b => exact Or.inl ⟨rfl, b, by simp [parseParameter, ht, hc]⟩
    | _ => exact Or.inr (by simp [parseParameter, ht, hc])
  · right
    simp only [parseParameter, ht, hb, decide_False]

/-- C10, amended: every input on which `parseParameter` succeeds is a map with
a string tag, and the type is `address` for `AbiAddress`, `bool` for `AbiBool`,
`string` for `AbiString`, and for `AbiBytes`, `AbiUInt` and `AbiInt`, with `n`
the number in `contents[0]`: `bytes` when `n` is not greater than 0, and
otherwise `bytes`, `uint` or `int` followed by the decimal of `int(n)`, which
is checked against no range. -/
theorem parseParameter_type_by_tag (env : GoEnv) (p : JSONValue)
    (h : (parseParameter env p).2 = none) :
    SolTypeShape (parseParameter env p).1.Type_ ∧
      ∃ (m : List (String × JSONValue)) (tag : String),
        p = .object m ∧ mapIndex m "tag" = .string tag ∧
          TypeForTag env tag (mapIndex m "contents") (parseParameter env p).1.Type_ := by
  refine ⟨parseParameter_solTypeShape env p h, ?_⟩
  cases p with
  | object m =>
    cases ht : mapIndex m "tag" with
    | string tag =>
      refine ⟨m, tag, rfl, ht, ?_⟩
      rcases parseParameter_object_cases env m tag ht with ⟨hb, b, hres⟩ | ht2
      · rw [hres]
        exact Or.inr (Or.inl ⟨hb, rfl⟩)
      · rw [ht2] at h ⊢
        exact parseTagged_type env _ _ h
    | _ => simp [parseParameter, ht] at h
  | _ => simp [parseParameter] at h

theorem parseParameter_type_by_tag_witness :
    (parseParameter GoEnv.amd64
        (taggedParam "AbiBytes" (.array [.number ⟨false, 32, 0⟩, .string "0xab"]))).2 = none ∧
      SolTypeShape (parseParameter GoEnv.amd64
        (taggedParam "AbiBytes" (.array [.number ⟨false, 32, 0⟩, .string "0xab"]))).1.Type_ ∧
      ∃ (m : List (String × JSONValue)) (tag : String),
        taggedParam "AbiBytes" (.array [.number ⟨false, 32, 0⟩, .string "0xab"]) = .object m ∧
          mapIndex m "tag" = .string tag ∧
          TypeForTag GoEnv.amd64 tag (mapIndex m "contents")
            (parseParameter GoEnv.amd64
              (taggedParam "AbiBytes"
                (.array [.number ⟨false, 32, 0⟩, .string "0xab"]))).1.Type_ :=
  ⟨by decide, parseParameter_type_by_tag GoEnv.amd64 _ (by decide)⟩

/-- C10, counterexample: `parseParameter` succeeds on the bit width 7 and on
the size 33, with the types `uint7` and `bytes33`, neither of which is a
valid Solidity type name. -/
theorem parseParameter_type_not_valid :
    parseParameter GoEnv.amd64
        (taggedParam "AbiUInt" (.array [.number ⟨false, 7, 0⟩, .string "1"])) =
      (⟨"uint7", "1"⟩, none) ∧
    "uint7" ∉ validSolTypes ∧
    parseParameter GoEnv.amd64
        (taggedParam "AbiBytes" (.array [.number ⟨false, 33, 0⟩, .string "0x00"])) =
      (⟨"bytes33", "0x00"⟩, none) ∧
    "bytes33" ∉ validSolTypes := by
  refine ⟨by decide, by decide, by decide, by decide⟩

/-! ## Claims on addresses, bytes and strings -/

theorem hasPrefixStr_append (p s : String) : hasPrefixStr (p ++ s) p = true := by
  simp [hasPrefixStr, String.data_append]

/-- C11: for every string `s`, `parseParameter` on an `AbiAddress` parameter
with contents `[s]` succeeds with type `address` and with value `s` when `s`
starts with `0x`, and `0x` followed by `s` otherwise; the value always starts
with `0x`. -/
theorem parseParameter_address (env : GoEnv) (m : List (String × JSONValue)) (s : String)
    (ht : mapIndex m "tag" = .string "AbiAddress")
    (hc : mapIndex m "contents" = .array [.string s]) :
    parseParameter env (.object m) =
        (⟨"address", if hasPrefixStr s "0x" then s else "0x" ++ s⟩, none) ∧
      hasPrefixStr (parseParameter env (.object m)).1.Value "0x" = true := by
  have h : parseParameter env (.object m) =
      (⟨"address", if hasPrefixStr s "0x" then s else "0x" ++ s⟩, none) := by
    rw [parseParameter_array env m _ _ ht hc]
    by_cases hp : hasPrefixStr s "0x" = true <;>
      simp [parseTagged, parseAddressParameter, hp]
  refine ⟨h, ?_⟩
  rw [h]
  by_cases hp : hasPrefixStr s "0x" = true
  · simp [hp]
  · simp [hp, hasPrefixStr_append]

theorem parseParameter_address_witness :
    parseParameter GoEnv.amd64
        (taggedParam "AbiAddress" (.array [.string "1234567890123456789012345678901234567890"])) =
        (⟨"address",
          if hasPrefixStr "1234567890123456789012345678901234567890" "0x" then
            "1234567890123456789012345678901234567890"
          else "0x" ++ "1234567890123456789012345678901234567890"⟩, none) ∧
      hasPrefixStr (parseParameter GoEnv.amd64
        (taggedParam "AbiAddress"
          (.array [.string "1234567890123456789012345678901234567890"]))).1.Value "0x" = true :=
  parseParameter_address GoEnv.amd64 _ _ rfl rfl

/-- C12, amended: for a numeric size `n` whose integer part fits `int64` and
a string `h`, `parseParameter` on an `AbiBytes` parameter with contents
`[n, h]` succeeds with value `h` unchanged, and with type `bytes` followed by
the decimal of `n` truncated toward zero when `n > 0`, and type `bytes` when
`n` is not greater than 0. -/
theorem parseParameter_bytes (env : GoEnv) (m : List (String × JSONValue)) (n : F64)
    (h : String) (ht : mapIndex m "tag" = .string "AbiBytes")
    (hc : mapIndex m "contents" = .array [.number n, .string h])
    (hhi : n.trunc < (2 ^ 63 : Int)) :
    parseParameter env (.object m) =
      (⟨if n.isPos then "bytes" ++ toString n.trunc else "bytes", h⟩, none) := by
  rw [parseParameter_array env m _ _ ht hc]
  by_cases hp : n.isPos = true
  · have hneg : n.neg = false := by
      simp [F64.isPos] at hp
      exact hp.1
    have hlo : -(2 ^ 63 : Int) ≤ n.trunc := by
      simp only [F64.trunc, hneg]
      have : (0 : Int) ≤ (n.truncMag : Int) := Int.ofNat_nonneg _
      simp only [Bool.false_eq_true, if_false]
      omega
    simp [parseTagged, parseBytesParameter, hp, goInt_of_range env n hlo hhi]
  · simp [parseTagged, parseBytesParameter, hp]

theorem parseParameter_bytes_witness :
    (⟨false, 32, 0⟩ : F64).trunc < (2 ^ 63 : Int) ∧
      parseParameter GoEnv.amd64
          (taggedParam "AbiBytes" (.array [.number ⟨false, 32, 0⟩, .string "0xab"])) =
        (⟨if (⟨false, 32, 0⟩ : F64).isPos then
            "bytes" ++ toString (⟨false, 32, 0⟩ : F64).trunc else "bytes", "0xab"⟩, none) :=
  ⟨by decide, parseParameter_bytes GoEnv.amd64 _ ⟨false, 32, 0⟩ "0xab" rfl rfl (by decide)⟩

/-- C12, counterexample: the sizes `0.5` and `2.5` are greater than 0 and no
integers; the types come out as `bytes0` and `bytes2`, not as `bytes`
followed by the decimal of the size. -/
theorem parseParameter_bytes_fractional_size :
    (⟨false, 1, -1⟩ : F64).IsBinary64 ∧ (⟨false, 1, -1⟩ : F64).isPos = true ∧
      (⟨false, 1, -1⟩ : F64).toInt? = none ∧
      parseParameter GoEnv.amd64
          (taggedParam "AbiBytes" (.array [.number ⟨false, 1, -1⟩, .string "0x"])) =
        (⟨"bytes0", "0x"⟩, none) ∧
      (⟨false, 5, -1⟩ : F64).IsBinary64 ∧ (⟨false, 5, -1⟩ : F64).isPos = true ∧
      (⟨false, 5, -1⟩ : F64).toInt? = none ∧
      parseParameter GoEnv.amd64
          (taggedParam "AbiBytes" (.array [.number ⟨false, 5, -1⟩, .string "0xabcd"])) =
        (⟨"bytes2", "0xabcd"⟩, none) := by
  refine ⟨by decide, by decide, by decide, by decide, by decide, by decide, by decide,
    by decide⟩

/-- C13: for every string `s`, `parseParameter` on an `AbiString` parameter
with contents `[s]` succeeds with type `string` and with the value made of a
double quote, the characters of `s` unchanged, and a double quote. -/
theorem parseParameter_string (env : GoEnv) (m : List (String × JSONValue)) (s : String)
    (ht : mapIndex m "tag" = .string "AbiString")
    (hc : mapIndex m "contents" = .array [.string s]) :
    parseParameter env (.object m) = (⟨"string", "\"" ++ s ++ "\""⟩, none) ∧
      (parseParameter env (.object m)).1.Value.data = '"' :: (s.data ++ ['"']) := by
  have h : parseParameter env (.object m) = (⟨"string", "\"" ++ s ++ "\""⟩, none) := by
    rw [parseParameter_array env m _ _ ht hc]
    simp [parseTagged, parseStringParameter]
  refine ⟨h, ?_⟩
  rw [h]
  simp [String.data_append]

theorem parseParameter_string_witness :
    parseParameter GoEnv.amd64 (taggedParam "AbiString" (.array [.string "a\"b\\c"])) =
        (⟨"string", "\"" ++ "a\"b\\c" ++ "\""⟩, none) ∧
      (parseParameter GoEnv.amd64
        (taggedParam "AbiString" (.array [.string "a\"b\\c"]))).1.Value.data =
        '"' :: ("a\"b\\c".data ++ ['"']) :=
  parseParameter_string GoEnv.amd64 _ _ rfl rfl

/-! ## Claims on `parseDelay` -/

theorem lt_128_of_or_32_le (k : Nat) (h : k ||| 32 ≤ 122) : k < 128 := by
  have h7 : k ||| 32 < 2 ^ 7 := by omega
  apply Nat.lt_pow_two_of_testBit (n := 7)
  intro i hi
  have hlt : k ||| 32 < 2 ^ i :=
    lt_of_lt_of_le h7 (Nat.pow_le_pow_right (by decide) hi)
  have := Nat.testBit_lt_two_pow hlt
  rw [Nat.testBit_or] at this
  simp only [Bool.or_eq_false_iff] at this
  exact this.1

theorem hexDigit_of_isHexDigit (c : Char) (h : IsHexDigit c) :
    hexDigit c = some (hexCharValue c) := by
  unfold hexDigit hexCharValue
  unfold IsHexDigit at h
  generalize c.toNat = k at h ⊢
  rcases h with ⟨h1, h2⟩ | ⟨h1, h2⟩ | ⟨h1, h2⟩ <;> interval_cases k <;> decide

theorem hexDigit_some (c : Char) (d : Nat) (h : hexDigit c = some d) :
    IsHexDigit c ∧ d = hexCharValue c := by
  unfold hexDigit at h
  unfold IsHexDigit hexCharValue
  generalize c.toNat = k at h ⊢
  split at h
  · rename_i hk
    simp only [Option.some.injEq] at h
    subst h
    refine ⟨Or.inl hk, ?_⟩
    simp [hk.2]
  · split at h
    · rename_i hk1 hk2
      have hk : k < 128 := lt_128_of_or_32_le k hk2.2
      split at h
      · simp only [Option.some.injEq] at h
        subst h
        rename_i h16
        interval_cases k <;> simp_all
      · simp at h
    · simp at h

theorem hexCharValue_lt (c : Char) (h : IsHexDigit c) : hexCharValue c < 16 := by
  unfold hexCharValue
  unfold IsHexDigit at h
  generalize c.toNat = k at h ⊢
  rcases h with ⟨h1, h2⟩ | ⟨h1, h2⟩ | ⟨h1, h2⟩ <;> interval_cases k <;> decide

theorem parseHexDigits_of_hex : ∀ (cs : List Char) (acc : Nat), (∀ c ∈ cs, IsHexDigit c) →
    parseHexDigits cs acc = some (cs.foldl (fun a c => a * 16 + hexCharValue c) acc) := by
  intro cs
  induction cs with
  | nil => intro acc _; rfl
  | cons c cs ih =>
    intro acc h
    simp only [parseHexDigits, hexDigit_of_isHexDigit c (h c (List.mem_cons_self _ _)),
      List.foldl_cons]
    exact ih _ (fun x hx => h x (List.mem_cons_of_mem _ hx))

theorem parseHexDigits_some : ∀ (cs : List Char) (acc r : Nat),
    parseHexDigits cs acc = some r →
    (∀ c ∈ cs, IsHexDigit c) ∧ r = cs.foldl (fun a c => a * 16 + hexCharValue c) acc := by
  intro cs
  induction cs with
  | nil => intro acc r h; simp [parseHexDigits] at h; simp [h]
  | cons c cs ih =>
    intro acc r h
    simp only [parseHexDigits] at h
    cases hd : hexDigit c with
    | none => simp [hd] at h
    | some d =>
      simp only [hd] at h
      obtain ⟨hc, hdv⟩ := hexDigit_some c d hd
      obtain ⟨hall, hr⟩ := ih _ _ h
      subst hdv
      refine ⟨?_, by simpa using hr⟩
      intro x hx
      rcases List.mem_cons.mp hx with rfl | hx
      · exact hc
      · exact hall x hx

theorem hexFold_lt : ∀ (cs : List Char) (acc k : Nat), (∀ c ∈ cs, IsHexDigit c) →
    acc < 16 ^ k →
    cs.foldl (fun a c => a * 16 + hexCharValue c) acc < 16 ^ (k + cs.length) := by
  intro cs
  induction cs with
  | nil => intro acc k _ h; simpa using h
  | cons c cs ih =>
    intro acc k h hacc
    have hc := hexCharValue_lt c (h c (List.mem_cons_self _ _))
    have hstep : acc * 16 + hexCharValue c < 16 ^ (k + 1) := by
      rw [pow_succ]; omega
    have := ih (acc * 16 + hexCharValue c) (k + 1)
      (fun x hx => h x (List.mem_cons_of_mem _ hx)) hstep
    simpa [List.length_cons, Nat.add_assoc, Nat.add_comm 1] using this

theorem hexValue_lt (cs : List Char) (h : ∀ c ∈ cs, IsHexDigit c) :
    hexValue cs < 16 ^ cs.length := by
  have := hexFold_lt cs 0 0 h (by decide)
  simpa [hexValue] using this

theorem isHexDigit_not_sign (c : Char) (h : IsHexDigit c) : c ≠ '+' ∧ c ≠ '-' := by
  constructor <;>
  · rintro rfl
    revert h
    decide

/-- `strconv.ParseInt` on a non-empty string of at most 15 hexadecimal digits
returns the number they denote. -/
theorem parseInt16_of_hex (s : String) (hd : ∀ c ∈ s.data, IsHexDigit c)
    (h1 : 1 ≤ s.length) (h15 : s.length ≤ 15) :
    parseInt16 s = some (hexValue s.data : Int) := by
  unfold parseInt16
  have hlen : s.data.length = s.length := rfl
  cases hs : s.data with
  | nil => rw [← hlen, hs] at h1; simp at h1
  | cons c cs =>
    have hc := isHexDigit_not_sign c (hd c (by rw [hs]; exact List.mem_cons_self _ _))
    have hall : ∀ x ∈ c :: cs, IsHexDigit x := by rw [← hs]; exact hd
    have hlt : hexValue (c :: cs) < 2 ^ 63 := by
      have h16 := hexValue_lt (c :: cs) hall
      have hle : (c :: cs).length ≤ 15 := by rw [← hs, hlen]; exact h15
      have : 16 ^ (c :: cs).length ≤ 16 ^ 15 := Nat.pow_le_pow_right (by decide) hle
      have h63 : (16 : Nat) ^ 15 < 2 ^ 63 := by decide
      omega
    have hph := parseHexDigits_of_hex (c :: cs) 0 hall
    simp only [hc.1, hc.2, or_self, if_false, decide_False]
    rw [hph]
    have hnot : ¬ (2 ^ 63 ≤ List.foldl (fun a c => a * 16 + hexCharValue c) 0 (c :: cs)) := by
      have : List.foldl (fun a c => a * 16 + hexCharValue c) 0 (c :: cs) = hexValue (c :: cs) :=
        rfl
      omega
    have hd2 : decide (2 ^ 63 ≤
        List.foldl (fun a c => a * 16 + hexCharValue c) 0 (c :: cs)) = false :=
      decide_eq_false hnot
    simp only [hd2, hexValue]
    rfl

theorem parseDelay_short (delay : List String) (h : delay.length < 2) :
    parseDelay delay = (false, "0") := by
  simp [parseDelay, h]

theorem parseDelay_cons (d x : String) (rest : List String) :
    parseDelay (d :: x :: rest) =
      if d = "0x0000000000000000000000000000000000000000000000000000000000000000"
          ∨ d = "0x0" then (false, "0")
      else
        match parseInt16 (retainedHex d) with
        | none => (false, "0")
        | some delayInt => if delayInt = 0 then (false, "0") else (true, toString delayInt) := by
  simp [parseDelay, retainedHex]

theorem length_0x_append (h : String) : ("0x" ++ h).length = h.length + 2 := by
  have h2 : ("0x" : String).length = 2 := rfl
  rw [String.length_append, h2]
  omega

theorem retainedHex_0x_append (h : String) :
    retainedHex ("0x" ++ h) =
      if h.length > 8 then sliceFrom h (h.length - 8) else h := by
  have hs : sliceFrom ("0x" ++ h) 2 = h := by
    simp [sliceFrom, String.data_append]
  have hp : hasPrefixStr ("0x" ++ h) "0x" = true := hasPrefixStr_append "0x" h
  unfold retainedHex
  rw [hp]
  show (if (sliceFrom ("0x" ++ h) 2).length > 8 then
      sliceFrom (sliceFrom ("0x" ++ h) 2) ((sliceFrom ("0x" ++ h) 2).length - 8)
    else sliceFrom ("0x" ++ h) 2) = _
  rw [hs]

theorem sliceFrom_length (s : String) (n : Nat) : (sliceFrom s n).length = s.length - n := by
  show (List.drop n s.data).length = s.data.length - n
  exact List.length_drop n s.data

theorem retainedHex_length_le (d : String) : (retainedHex d).length ≤ 8 := by
  have key : ∀ t : String,
      (if t.length > 8 then sliceFrom t (t.length - 8) else t).length ≤ 8 := by
    intro t
    split
    · rw [sliceFrom_length]; omega
    · omega
  exact key _

theorem toDigitsCore_length_ge (b : Nat) : ∀ (f n : Nat) (ds : List Char),
    ds.length ≤ (Nat.toDigitsCore b f n ds).length := by
  intro f
  induction f with
  | zero => intro n ds; simp [Nat.toDigitsCore]
  | succ f ih =>
    intro n ds
    simp only [Nat.toDigitsCore]
    split
    · simp
    · exact le_trans (by simp) (ih _ _)

theorem toDigits_ne_zero (n : Nat) (hn : n ≠ 0) : Nat.toDigits 10 n ≠ ['0'] := by
  unfold Nat.toDigits
  simp only [Nat.toDigitsCore]
  by_cases h : n / 10 = 0
  · simp only [h, if_true]
    have hlt : n < 10 := by omega
    interval_cases n <;> simp_all [Nat.digitChar]
  · simp only [h, if_false]
    intro heq
    have hn10 : 10 ≤ n := by omega
    obtain ⟨f, rfl⟩ : ∃ f, n = f + 1 := ⟨n - 1, by omega⟩
    simp only [Nat.toDigitsCore] at heq
    split at heq
    · simp at heq
    · have := toDigitsCore_length_ge 10 f ((f + 1) / 10 / 10)
        [Nat.digitChar ((f + 1) / 10 % 10), Nat.digitChar ((f + 1) % 10)]
      rw [heq] at this
      simp at this

theorem toString_nat_ne_zero (n : Nat) (hn : n ≠ 0) : toString n ≠ "0" := by
  intro h
  have hd : (toString n).data = ['0'] := by rw [h]
  exact toDigits_ne_zero n hn hd

theorem toString_int_ne_zero (i : Int) (hi : i ≠ 0) : toString i ≠ "0" := by
  cases i with
  | ofNat m =>
    have hm : m ≠ 0 := by
      rintro rfl
      exact hi rfl
    exact toString_nat_ne_zero m hm
  | negSucc m =>
    intro h
    have hd : (toString (Int.negSucc m)).data = ['0'] := by rw [h]
    have hneg : (toString (Int.negSucc m)).data = '-' :: (toString (m + 1)).data := rfl
    rw [hneg] at hd
    simp at hd

theorem parseDelay_cases (delay : List String) :
    parseDelay delay = (false, "0") ∨
      ∃ i : Int, i ≠ 0 ∧ parseDelay delay = (true, toString i) ∧
        parseInt16 (retainedHex (delay.headD "")) = some i := by
  match delay with
  | [] => exact Or.inl (parseDelay_short _ (by simp))
  | [_] => exact Or.inl (parseDelay_short _ (by simp))
  | d :: x :: rest =>
    rw [parseDelay_cons]
    split
    · exact Or.inl rfl
    · cases hp : parseInt16 (retainedHex d) with
      | none => exact Or.inl rfl
      | some i =>
        by_cases hi : i = 0
        · simp [hi]
        · exact Or.inr ⟨i, hi, by simp [hi], by simpa using hp⟩

theorem parseInt16_unsigned (s : String) (i : Int) (h : parseInt16 s = some i)
    (hs : ∀ c, s.data.head? = some c → c ≠ '+' ∧ c ≠ '-') :
    s.data ≠ [] ∧ (∀ c ∈ s.data, IsHexDigit c) ∧ i = (hexValue s.data : Int) := by
  unfold parseInt16 at h
  cases hd : s.data with
  | nil => simp [hd] at h
  | cons c cs =>
    have hc := hs c (by simp [hd])
    simp only [hd, hc.1, hc.2, or_self, if_false, decide_False] at h
    cases hp : parseHexDigits (c :: cs) 0 with
    | none => simp [hp] at h
    | some un =>
      simp only [hp] at h
      obtain ⟨hall, hun⟩ := parseHexDigits_some _ _ _ hp
      refine ⟨by simp, hall, ?_⟩
      split at h
      · simp at h
      · simp at h
        rw [← h, hun]
        rfl

/-- C14: for a string `h` of 1 to 8 hexadecimal digits with value `n` and any
second element `x`, `parseDelay ["0x" ++ h, x]` is `(true, decimal of n)` when
`n > 0` and `(false, "0")` when `n = 0`; `0x1E` gives `(true, "30")` and `0x0`
gives `(false, "0")`. -/
theorem parseDelay_short_hex (h x : String) (hd : ∀ c ∈ h.data, IsHexDigit c)
    (h1 : 1 ≤ h.length) (h8 : h.length ≤ 8) :
    parseDelay ["0x" ++ h, x] =
        (if hexValue h.data = 0 then (false, "0") else (true, toString (hexValue h.data))) ∧
      parseDelay ["0x1E", x] = (true, "30") ∧ parseDelay ["0x0", x] = (false, "0") := by
  refine ⟨?_, by rw [parseDelay_cons]; decide, by rw [parseDelay_cons]; decide⟩
  rw [parseDelay_cons]
  by_cases hlit :
      ("0x" ++ h = "0x0000000000000000000000000000000000000000000000000000000000000000"
        ∨ "0x" ++ h = "0x0")
  · rcases hlit with hZ | h0
    · have hl := congrArg String.length hZ
      rw [length_0x_append] at hl
      have h66 : ("0x0000000000000000000000000000000000000000000000000000000000000000" :
          String).length = 66 := by decide
      omega
    · have hdat := congrArg String.data h0
      have hh : h = "0" := by
        apply String.ext
        simpa [String.data_append] using hdat
      subst hh
      decide
  · rw [if_neg hlit, retainedHex_0x_append, if_neg (by omega),
      parseInt16_of_hex h hd h1 (by omega)]
    by_cases hv : hexValue h.data = 0
    · simp [hv]
    · have hvi : ((hexValue h.data : Nat) : Int) ≠ 0 := by exact_mod_cast hv
      simp only [hvi, hv, if_false]
      rfl

theorem parseDelay_short_hex_witness :
    (∀ c ∈ "1E".data, IsHexDigit c) ∧ 1 ≤ "1E".length ∧ "1E".length ≤ 8 ∧
      parseDelay ["0x" ++ "1E", "0x0"] =
        (if hexValue "1E".data = 0 then (false, "0")
          else (true, toString (hexValue "1E".data))) ∧
      parseDelay ["0x1E", "0x0"] = (true, "30") ∧ parseDelay ["0x0", "0x0"] = (false, "0") :=
  ⟨by decide, by decide, by decide,
    parseDelay_short_hex "1E" "0x0" (by decide) (by decide) (by decide)⟩

/-- C15: for a string `h` of more than 8 hexadecimal digits, `parseDelay` on a
delay whose first element is `0x` followed by `h` returns what it returns on
the delay whose first element is `0x` followed by the last 8 digits of `h`;
`0x100000000` decodes as absent. -/
theorem parseDelay_long_hex (h : String) (rest : List String)
    (_hd : ∀ c ∈ h.data, IsHexDigit c) (h9 : 8 < h.length) :
    parseDelay (("0x" ++ h) :: rest) =
        parseDelay (("0x" ++ sliceFrom h (h.length - 8)) :: rest) ∧
      parseDelay ("0x100000000" :: rest) = parseDelay ("0x00000000" :: rest) ∧
      parseDelay ["0x100000000", "0x0"] = (false, "0") := by
  have hrest : ∀ d₁ d₂ : String, (∀ x r, parseDelay (d₁ :: x :: r) = parseDelay (d₂ :: x :: r)) →
      parseDelay (d₁ :: rest) = parseDelay (d₂ :: rest) := by
    intro d₁ d₂ hx
    cases rest with
    | nil => rw [parseDelay_short _ (by simp), parseDelay_short _ (by simp)]
    | cons x r => exact hx x r
  refine ⟨hrest _ _ ?_, hrest _ _ (fun x r => by rw [parseDelay_cons, parseDelay_cons]; decide),
    by decide⟩
  intro x r
  have htl : (sliceFrom h (h.length - 8)).length = 8 := by
    rw [sliceFrom_length]; omega
  have h2 : ¬ ("0x" ++ sliceFrom h (h.length - 8) =
        "0x0000000000000000000000000000000000000000000000000000000000000000"
      ∨ "0x" ++ sliceFrom h (h.length - 8) = "0x0") := by
    rintro (hZ | h0)
    · have hl := congrArg String.length hZ
      rw [length_0x_append, htl] at hl
      revert hl; decide
    · have hl := congrArg String.length h0
      rw [length_0x_append, htl] at hl
      revert hl; decide
  have hR : parseDelay (("0x" ++ sliceFrom h (h.length - 8)) :: x :: r) =
      match parseInt16 (sliceFrom h (h.length - 8)) with
      | none => (false, "0")
      | some delayInt => if delayInt = 0 then (false, "0") else (true, toString delayInt) := by
    rw [parseDelay_cons, if_neg h2, retainedHex_0x_append, if_neg (by rw [htl]; decide)]
  rw [hR, parseDelay_cons]
  by_cases hlit :
      ("0x" ++ h = "0x0000000000000000000000000000000000000000000000000000000000000000"
        ∨ "0x" ++ h = "0x0")
  · rcases hlit with hZ | h0
    · have hdat := congrArg String.data hZ
      have hh : h = "0000000000000000000000000000000000000000000000000000000000000000" := by
        apply String.ext
        simpa [String.data_append] using hdat
      subst hh
      decide
    · have hl := congrArg String.length h0
      rw [length_0x_append] at hl
      have h3 : ("0x0" : String).length = 3 := by decide
      omega
  · rw [if_neg hlit, retainedHex_0x_append, if_pos h9]

theorem parseDelay_long_hex_witness :
    (∀ c ∈ "1000000FF".data, IsHexDigit c) ∧ 8 < "1000000FF".length ∧
      parseDelay (("0x" ++ "1000000FF") :: ["0x0"]) =
        parseDelay (("0x" ++ sliceFrom "1000000FF" ("1000000FF".length - 8)) :: ["0x0"]) ∧
      parseDelay ("0x100000000" :: ["0x0"]) = parseDelay ("0x00000000" :: ["0x0"]) ∧
      parseDelay ["0x100000000", "0x0"] = (false, "0") :=
  ⟨by decide, by decide, parseDelay_long_hex "1000000FF" ["0x0"] (by decide) (by decide)⟩

/-- C16, amended: whenever `parseDelay` returns `hasDelay = true` and the text
it parses (the first element without its `0x` prefix, cut to its last 8
characters) does not begin with a sign, that text is a non-empty string of
hexadecimal digits and `delayValue` is the decimal of its value, an integer
between 1 and `0xFFFFFFFF`. -/
theorem parseDelay_present (delay : List String) (h : (parseDelay delay).1 = true)
    (hs : (retainedHex (delay.headD "")).data.head? ≠ some '+' ∧
      (retainedHex (delay.headD "")).data.head? ≠ some '-') :
    (retainedHex (delay.headD "")).data ≠ [] ∧
      (∀ c ∈ (retainedHex (delay.headD "")).data, IsHexDigit c) ∧
      1 ≤ hexValue (retainedHex (delay.headD "")).data ∧
      hexValue (retainedHex (delay.headD "")).data ≤ 0xFFFFFFFF ∧
      (parseDelay delay).2 = toString (hexValue (retainedHex (delay.headD "")).data) := by
  rcases parseDelay_cases delay with h0 | ⟨i, hi, hp, hparse⟩
  · rw [h0] at h; simp at h
  · have hsign : ∀ c, (retainedHex (delay.headD "")).data.head? = some c → c ≠ '+' ∧ c ≠ '-' := by
      intro c hc
      rw [hc] at hs
      exact ⟨fun e => hs.1 (by rw [e]), fun e => hs.2 (by rw [e])⟩
    obtain ⟨hne, hall, hval⟩ := parseInt16_unsigned _ i hparse hsign
    have hlt := hexValue_lt _ hall
    have hlen : (retainedHex (delay.headD "")).data.length ≤ 8 := retainedHex_length_le _
    have hpow : 16 ^ (retainedHex (delay.headD "")).data.length ≤ 16 ^ 8 :=
      Nat.pow_le_pow_right (by decide) hlen
    have h168 : (16 : Nat) ^ 8 = 0xFFFFFFFF + 1 := by decide
    have hpos : hexValue (retainedHex (delay.headD "")).data ≠ 0 := by
      intro h0
      apply hi
      rw [hval, h0]
      rfl
    refine ⟨hne, hall, by omega, by omega, ?_⟩
    rw [hp, hval]
    rfl

theorem parseDelay_present_witness :
    (parseDelay ["0x1E", "0x0"]).1 = true ∧
      (retainedHex (["0x1E", "0x0"].headD "")).data ≠ [] ∧
      (∀ c ∈ (retainedHex (["0x1E", "0x0"].headD "")).data, IsHexDigit c) ∧
      1 ≤ hexValue (retainedHex (["0x1E", "0x0"].headD "")).data ∧
      hexValue (retainedHex (["0x1E", "0x0"].headD "")).data ≤ 0xFFFFFFFF ∧
      (parseDelay ["0x1E", "0x0"]).2 =
        toString (hexValue (retainedHex (["0x1E", "0x0"].headD "")).data) :=
  ⟨by decide, parseDelay_present ["0x1E", "0x0"] (by decide) (by decide)⟩

/-- C16, counterexample: only the last 8 characters of the first element are
parsed, so `zz00000001`, which is no hexadecimal numeral, gives the delay `1`;
and `strconv.ParseInt` takes a sign, so `-1E` gives the delay `-30` and `+1E`
the delay `30`. -/
theorem parseDelay_present_not_unsigned_hex :
    parseDelay ["zz00000001", "0x0"] = (true, "1") ∧
      ¬ (∀ c ∈ "zz00000001".data, IsHexDigit c) ∧
      parseDelay ["-1E", "0x0"] = (true, "-30") ∧
      parseDelay ["+1E", "0x0"] = (true, "30") := by
  refine ⟨by decide, by decide, by decide, by decide⟩

/-- C17: `parseDelay` returns `hasDelay = false` exactly when it returns
`delayValue = "0"`. -/
theorem parseDelay_absent_iff (delay : List String) :
    (parseDelay delay).1 = false ↔ (parseDelay delay).2 = "0" := by
  rcases parseDelay_cases delay with h0 | ⟨i, hi, hp, _⟩
  · rw [h0]; simp
  · rw [hp]
    simp only [Bool.true_eq_false, false_iff]
    exact toString_int_ne_zero i hi

/-! ## Claims on `convertToTemplateCalls` -/

theorem paramValues_fold (params : List ParsedParam) : ∀ acc : List String,
    params.foldl (fun acc param => acc ++ [param.Value]) acc =
      acc ++ params.map (fun p => p.Value) := by
  induction params with
  | nil => intro acc; simp
  | cons p ps ih => intro acc; simp [ih]

theorem paramValues_eq_map (params : List ParsedParam) :
    paramValues params = params.map (fun p => p.Value) := by
  simpa [paramValues] using paramValues_fold params []

theorem mapAddressToActor_ne_empty (address : String) : mapAddressToActor address ≠ "" := by
  unfold mapAddressToActor
  split
  · decide
  · split
    · decide
    · split <;> decide

/-- One turn of the loop appends the block of the call and moves `lastActor`
as the reference does, when `lastActor` stands for the optional actor `last`:
the empty string for `none`. -/
theorem convertToTemplateCallsFrom_cons (call : ParsedCall) (rest : List ParsedCall)
    (result : List templateCall) (lastActor : String) (last : Option String)
    (hl : (last = none ∧ lastActor = "") ∨ last = some lastActor) :
    ∃ lastActor', convertToTemplateCallsFrom (call :: rest) result lastActor =
        convertToTemplateCallsFrom rest
          (result ++ (sequenceBlock last call).map Instruction.toTemplateCall) lastActor' ∧
      ((if some (mapAddressToActor call.Src) ≠ last then some (mapAddressToActor call.Src)
          else last) = some lastActor') := by
  have hsw : (mapAddressToActor call.Src ≠ lastActor) ↔ (some (mapAddressToActor call.Src) ≠ last) := by
    rcases hl with ⟨h1, h2⟩ | h1
    · subst h1 h2
      simp [mapAddressToActor_ne_empty]
    · subst h1
      simp
  by_cases hs : mapAddressToActor call.Src ≠ lastActor
  · have hs' := hsw.mp hs
    refine ⟨mapAddressToActor call.Src, ?_, by simp [hs']⟩
    by_cases hd : call.HasDelay = true <;> by_cases hf : call.FunctionName = "" <;>
      simp [convertToTemplateCallsFrom, sequenceBlock, callBody, Instruction.toTemplateCall,
        hs, hs', hd, hf, stringsJoin, paramValues_eq_map]
  · have hs' : ¬ (some (mapAddressToActor call.Src) ≠ last) := fun h => hs (hsw.mpr h)
    have hlast : last = some lastActor := by
      rcases hl with ⟨h1, h2⟩ | h1
      · subst h1 h2
        exact absurd (mapAddressToActor_ne_empty call.Src) hs
      · exact h1
    have heq : mapAddressToActor call.Src = lastActor := not_not.mp hs
    refine ⟨lastActor, ?_, by simp [hlast, heq]⟩
    by_cases hd : call.HasDelay = true <;> by_cases hf : call.FunctionName = "" <;>
      simp [convertToTemplateCallsFrom, sequenceBlock, callBody, Instruction.toTemplateCall,
        hs, hs', hd, hf, stringsJoin, paramValues_eq_map]

theorem convertToTemplateCallsFrom_eq : ∀ (calls : List ParsedCall) (result : List templateCall)
    (lastActor : String) (last : Option String),
    ((last = none ∧ lastActor = "") ∨ last = some lastActor) →
    convertToTemplateCallsFrom calls result lastActor =
      result ++ (sequenceFrom last calls).map Instruction.toTemplateCall := by
  intro calls
  induction calls with
  | nil => intro result lastActor last _; simp [convertToTemplateCallsFrom, sequenceFrom]
  | cons call rest ih =>
    intro result lastActor last hl
    obtain ⟨lastActor', hstep, hlast⟩ :=
      convertToTemplateCallsFrom_cons call rest result lastActor last hl
    rw [hstep, ih _ lastActor' _ (Or.inr hlast)]
    simp [sequenceFrom]

theorem convertToTemplateCalls_eq (calls : List ParsedCall) :
    convertToTemplateCalls calls =
      (sequenceFrom none calls).map Instruction.toTemplateCall := by
  simpa [convertToTemplateCalls] using
    convertToTemplateCallsFrom_eq calls [] "" none (Or.inl ⟨rfl, rfl⟩)

/-- C18: `convertToTemplateCalls` is the reference single-pass sequencer:
from `lastActor = none`, the concatenation in call order of one block per
call (actor switch when the actor differs from `lastActor`, then delay, then
invocation), each instruction written as its `templateCall`. -/
theorem convertToTemplateCalls_eq_reference (calls : List ParsedCall) :
    convertToTemplateCalls calls =
      (sequenceReference calls).map Instruction.toTemplateCall :=
  convertToTemplateCalls_eq calls

theorem callBody_no_switch (call : ParsedCall) :
    ((callBody call).map Instruction.toTemplateCall).filter (fun c => c.IsSetUpActor) = [] := by
  by_cases hd : call.HasDelay = true <;> by_cases hf : call.FunctionName = "" <;>
    simp [callBody, Instruction.toTemplateCall, hd, hf]

/-- C19, amended: for a three-call list `[a, b, c]` with `a.Src = b.Src` and
the actor of `c.Src` different from the actor of `a.Src`,
`convertToTemplateCalls` emits exactly two actor switches: one before the
instructions of `a`, none for `b`, and one before the instructions of `c`. -/
theorem convertToTemplateCalls_two_switches (a b c : ParsedCall) (hab : a.Src = b.Src)
    (hac : mapAddressToActor c.Src ≠ mapAddressToActor a.Src) :
    convertToTemplateCalls [a, b, c] =
        (Instruction.ActorSwitch (mapAddressToActor a.Src) ::
          (callBody a ++ callBody b ++
            Instruction.ActorSwitch (mapAddressToActor c.Src) :: callBody c)).map
          Instruction.toTemplateCall ∧
      countActorSwitches (convertToTemplateCalls [a, b, c]) = 2 := by
  have hbc : ¬ mapAddressToActor c.Src = mapAddressToActor b.Src := by rw [← hab]; exact hac
  have h : convertToTemplateCalls [a, b, c] =
      (Instruction.ActorSwitch (mapAddressToActor a.Src) ::
        (callBody a ++ callBody b ++
          Instruction.ActorSwitch (mapAddressToActor c.Src) :: callBody c)).map
        Instruction.toTemplateCall := by
    rw [convertToTemplateCalls_eq]
    simp [sequenceFrom, sequenceBlock, hab, hbc]
  refine ⟨h, ?_⟩
  rw [h]
  simp [countActorSwitches, List.filter_cons, List.filter_append, callBody_no_switch,
    Instruction.toTemplateCall]

theorem convertToTemplateCalls_two_switches_witness :
    sampleFirst.Src = sampleSecond.Src ∧
      mapAddressToActor sampleThird.Src ≠ mapAddressToActor sampleFirst.Src ∧
      convertToTemplateCalls [sampleFirst, sampleSecond, sampleThird] =
        (Instruction.ActorSwitch (mapAddressToActor sampleFirst.Src) ::
          (callBody sampleFirst ++ callBody sampleSecond ++
            Instruction.ActorSwitch (mapAddressToActor sampleThird.Src) ::
              callBody sampleThird)).map
          Instruction.toTemplateCall ∧
      countActorSwitches (convertToTemplateCalls [sampleFirst, sampleSecond, sampleThird]) = 2 :=
  ⟨by decide, by decide,
    convertToTemplateCalls_two_switches sampleFirst sampleSecond sampleThird (by decide)
      (by decide)⟩

/-- C19, counterexample: the third call comes from another address, one that
is not in the actor table and so maps to `USER1` like the first two; a single
actor switch is emitted, before the first call. -/
theorem convertToTemplateCalls_one_switch :
    sampleFirst.Src = sampleSecond.Src ∧ sampleStranger.Src ≠ sampleFirst.Src ∧
      countActorSwitches (convertToTemplateCalls [sampleFirst, sampleSecond, sampleStranger]) =
        1 ∧
      convertToTemplateCalls [sampleFirst, sampleSecond, sampleStranger] =
        [Instruction.ActorSwitch "USER1", Instruction.Invoke "deposit" "",
          Instruction.Invoke "withdraw" "", Instruction.Invoke "claim" ""].map
          Instruction.toTemplateCall := by
  refine ⟨by decide, by decide, by decide, by decide⟩

/-! ## End to end -/

/-- C20: a document of one `SolCall` transaction of a function `f` with a
non-empty name, a single `AbiUInt` parameter `[256, v]`, the absent delay
`["0x0", "0x0"]` and the source address of `USER1` decodes without error, and
sequencing the decoded calls gives exactly `[ActorSwitch(USER1), Invoke(f, v)]`. -/
theorem parse_then_convert (env : GoEnv) (tx : Transaction) (f v : String)
    (m : List (String × JSONValue)) (hf : f ≠ "")
    (htag : tx.Call.Tag = "SolCall")
    (hcont : tx.Call.Contents = [.string f, .array [.object m]])
    (ht : mapIndex m "tag" = .string "AbiUInt")
    (hc : mapIndex m "contents" = .array [.number ⟨false, 256, 0⟩, .string v])
    (hdelay : tx.Delay = ["0x0", "0x0"])
    (hsrc : tx.Src = "0x0000000000000000000000000000000000010000") :
    (parseTransactions env [tx]).2 = none ∧
      convertToTemplateCalls (parseTransactions env [tx]).1 =
        [Instruction.ActorSwitch "USER1", Instruction.Invoke f v].map
          Instruction.toTemplateCall := by
  have hparam : parseParameter env (.object m) =
      (⟨"uint" ++ toString (goInt env ⟨false, 256, 0⟩), v⟩, none) := by
    rw [parseParameter_array env m _ _ ht hc]
    simp [parseTagged, parseUintParameter]
  have hd : parseDelay ["0x0", "0x0"] = (false, "0") := by decide
  have hcall : parseCall env tx =
      (some
        { FunctionName := f
          Parameters := [⟨"uint" ++ toString (goInt env ⟨false, 256, 0⟩), v⟩]
          Dst := tx.Dst
          Src := tx.Src
          Value := tx.Value
          Gas := tx.Gas
          GasPrice := tx.GasPrice
          HasDelay := false
          DelayValue := "0" }, none) := by
    simp [parseCall, hcont, parseParams, hparam, hdelay, hd]
  have hp : parseTransactions env [tx] =
      ([{ FunctionName := f
          Parameters := [⟨"uint" ++ toString (goInt env ⟨false, 256, 0⟩), v⟩]
          Dst := tx.Dst
          Src := tx.Src
          Value := tx.Value
          Gas := tx.Gas
          GasPrice := tx.GasPrice
          HasDelay := false
          DelayValue := "0" }], none) := by
    unfold parseTransactions
    rw [parseTransactionsFrom_call env tx [] [] htag _ hcall]
    simp [parseTransactionsFrom]
  rw [hp]
  refine ⟨rfl, ?_⟩
  have hj : ", ".intercalate [v] = v := rfl
  simp [convertToTemplateCalls, convertToTemplateCallsFrom, hsrc, mapAddressToActor, hf,
    paramValues, stringsJoin, Instruction.toTemplateCall, hj]

theorem parse_then_convert_witness :
    (parseTransactions GoEnv.amd64 [sampleDeposit]).2 = none ∧
      convertToTemplateCalls (parseTransactions GoEnv.amd64 [sampleDeposit]).1 =
        [Instruction.ActorSwitch "USER1", Instruction.Invoke "deposit" "1000"].map
          Instruction.toTemplateCall :=
  parse_then_convert GoEnv.amd64 sampleDeposit "deposit" "1000" _ (by decide) rfl rfl rfl rfl
    rfl rfl

/-- Distinct instructions are written as distinct `templateCall`s, so the
comparison of C18 loses nothing. -/
theorem toTemplateCall_injective (i j : Instruction)
    (h : i.toTemplateCall = j.toTemplateCall) : i = j := by
  cases i <;> cases j <;> simp_all [Instruction.toTemplateCall]

/-! ## Claims on actors, short delays and test names -/

/-- C21: `mapAddressToActor` maps the three known addresses to `USER1`,
`USER2` and `USER3` and every other string to `USER1`; its result is one of
the three names and never empty. -/
theorem mapAddressToActor_table (address : String) :
    mapAddressToActor "0x0000000000000000000000000000000000010000" = "USER1" ∧
      mapAddressToActor "0x0000000000000000000000000000000000020000" = "USER2" ∧
      mapAddressToActor "0x0000000000000000000000000000000000030000" = "USER3" ∧
      (address ∉ ["0x0000000000000000000000000000000000010000",
          "0x0000000000000000000000000000000000020000",
          "0x0000000000000000000000000000000000030000"] →
        mapAddressToActor address = "USER1") ∧
      mapAddressToActor address ∈ ["USER1", "USER2", "USER3"] ∧
      mapAddressToActor address ≠ "" := by
  refine ⟨by decide, by decide, by decide, ?_, ?_, mapAddressToActor_ne_empty address⟩
  · intro h
    simp only [List.mem_cons, List.mem_singleton, List.not_mem_nil, or_false, not_or] at h
    simp [mapAddressToActor, h.1, h.2.1, h.2.2]
  · unfold mapAddressToActor
    split
    · simp
    · split
      · simp
      · split <;> simp

/-- C26: on a delay list with fewer than two elements `parseDelay` returns
`(false, "0")`, whatever the only element is. -/
theorem parseDelay_fewer_than_two (delay : List String) (h : delay.length < 2) :
    parseDelay delay = (false, "0") :=
  parseDelay_short delay h

theorem parseDelay_fewer_than_two_witness :
    ["0x1E"].length < 2 ∧ parseDelay ["0x1E"] = (false, "0") :=
  ⟨by decide, parseDelay_fewer_than_two ["0x1E"] (by decide)⟩

theorem lastNamedCall_none (calls : List ParsedCall) (h : ∀ x ∈ calls, x.FunctionName = "") :
    ∀ n, lastNamedCall calls n = none := by
  intro n
  induction n with
  | zero => rfl
  | succ i ih =>
    simp only [lastNamedCall]
    cases hc : calls[i]? with
    | none => simpa using ih
    | some call =>
      have hm : call ∈ calls := List.getElem?_mem hc
      simp [h call hm, ih]

theorem lastNamedCall_some (pre post : List ParsedCall) (c : ParsedCall)
    (hc : c.FunctionName ≠ "") (hpost : ∀ x ∈ post, x.FunctionName = "") :
    ∀ k, k ≤ post.length →
      lastNamedCall (pre ++ c :: post) (pre.length + 1 + k) = some c.FunctionName := by
  intro k
  induction k with
  | zero =>
    intro _
    have hidx0 : (pre ++ c :: post)[pre.length]? = some c := by
      rw [List.getElem?_append_right (le_refl _)]
      simp
    show lastNamedCall (pre ++ c :: post) (pre.length + 1) = some c.FunctionName
    simp only [lastNamedCall, hidx0]
    simp [hc]
  | succ k ih =>
    intro hk
    have hidx : (pre ++ c :: post)[pre.length + 1 + k]? = post[k]? := by
      rw [List.getElem?_append_right (by omega)]
      have : pre.length + 1 + k - pre.length = k + 1 := by omega
      rw [this]
      simp
    have hlt : k < post.length := by omega
    have hget : post[k]? = some post[k] := List.getElem?_eq_getElem hlt
    have hempty : post[k].FunctionName = "" := hpost _ (List.getElem_mem hlt)
    rw [show pre.length + 1 + (k + 1) = (pre.length + 1 + k) + 1 by omega]
    simp only [lastNamedCall, hidx, hget]
    simp [hempty, ih (by omega)]

/-- C27: `GenerateTestFunctionName` returns as `lastFunction` the name of the
last call with a non-empty `FunctionName` and as `testName` the prefix
followed by that name, the prefix being `test_replay_` for an empty `number`
and `test_replay_<number>_` otherwise; when no call has a name it returns the
prefix followed by `default` and the empty `lastFunction`. -/
theorem GenerateTestFunctionName_last_named (filePath number : String)
    (calls : List ParsedCall) :
    (∀ (pre post : List ParsedCall) (c : ParsedCall), calls = pre ++ c :: post →
        c.FunctionName ≠ "" → (∀ x ∈ post, x.FunctionName = "") →
        GenerateTestFunctionName filePath number calls =
          ((if number = "" then "test_replay_" else "test_replay_" ++ number ++ "_") ++
            c.FunctionName, c.FunctionName)) ∧
      ((∀ x ∈ calls, x.FunctionName = "") →
        GenerateTestFunctionName filePath number calls =
          ((if number = "" then "test_replay_" else "test_replay_" ++ number ++ "_") ++
            "default", "")) := by
  constructor
  · intro pre post c hcalls hc hpost
    have hl := lastNamedCall_some pre post c hc hpost post.length (le_refl _)
    have hlen : calls.length = pre.length + 1 + post.length := by
      rw [hcalls]; simp; omega
    unfold GenerateTestFunctionName
    rw [hlen, hcalls, hl]
    by_cases hn : number = "" <;> simp [hn]
  · intro h
    unfold GenerateTestFunctionName
    rw [lastNamedCall_none calls h]
    by_cases hn : number = "" <;> simp [hn]

theorem switchActors_append (xs ys : List templateCall) :
    switchActors (xs ++ ys) = switchActors xs ++ switchActors ys := by
  simp [switchActors, List.filter_append]

theorem switchActors_callBody (call : ParsedCall) :
    switchActors ((callBody call).map Instruction.toTemplateCall) = [] := by
  simp [switchActors, callBody_no_switch]

theorem switchActors_block_switch (call : ParsedCall) (last : Option String)
    (h : some (mapAddressToActor call.Src) ≠ last) :
    switchActors ((sequenceBlock last call).map Instruction.toTemplateCall) =
      [mapAddressToActor call.Src] := by
  have hb := switchActors_callBody call
  unfold sequenceBlock
  rw [if_pos h, List.map_append, switchActors_append, hb]
  simp [switchActors, Instruction.toTemplateCall]

theorem switchActors_block_same (call : ParsedCall) (last : Option String)
    (h : ¬ some (mapAddressToActor call.Src) ≠ last) :
    switchActors ((sequenceBlock last call).map Instruction.toTemplateCall) = [] := by
  have hb := switchActors_callBody call
  unfold sequenceBlock
  rw [if_neg h, List.map_append, switchActors_append, hb]
  simp [switchActors]

theorem switchActors_sequenceFrom : ∀ (calls : List ParsedCall) (a : String),
    a :: switchActors ((sequenceFrom (some a) calls).map Instruction.toTemplateCall) =
      collapseRunsFrom a (calls.map (fun c => mapAddressToActor c.Src)) := by
  intro calls
  induction calls with
  | nil => intro a; simp [sequenceFrom, switchActors, collapseRunsFrom]
  | cons call rest ih =>
    intro a
    simp only [sequenceFrom, List.map_append, switchActors_append, List.map_cons,
      collapseRunsFrom]
    by_cases h : a = mapAddressToActor call.Src
    · have h' : ¬ some (mapAddressToActor call.Src) ≠ some a := by simp [h]
      rw [switchActors_block_same call (some a) h', if_neg h', List.nil_append, ih a]
      simp [h]
    · have h' : some (mapAddressToActor call.Src) ≠ some a := by
        intro e
        exact h (Option.some.inj e).symm
      rw [switchActors_block_switch call (some a) h', if_pos h', List.singleton_append,
        ih (mapAddressToActor call.Src)]
      simp [h]

theorem switchActors_convert (calls : List ParsedCall) :
    switchActors (convertToTemplateCalls calls) =
      collapseRuns (calls.map (fun c => mapAddressToActor c.Src)) := by
  rw [convertToTemplateCalls_eq]
  cases calls with
  | nil => simp [sequenceFrom, switchActors, collapseRuns]
  | cons call rest =>
    have h : some (mapAddressToActor call.Src) ≠ none := by simp
    simp only [sequenceFrom, List.map_append, switchActors_append, List.map_cons, collapseRuns]
    rw [switchActors_block_switch call none h, if_pos h, List.singleton_append]
    exact switchActors_sequenceFrom rest _

theorem collapseRunsFrom_chain : ∀ (l : List String) (a : String),
    (collapseRunsFrom a l).head? = some a ∧
      List.Chain' (fun x y => x ≠ y) (collapseRunsFrom a l) := by
  intro l
  induction l with
  | nil => intro a; simp [collapseRunsFrom]
  | cons b rest ih =>
    intro a
    simp only [collapseRunsFrom]
    by_cases h : a = b
    · subst h
      simpa using ih a
    · simp only [ne_eq, h, not_false_eq_true, if_true, List.head?_cons, true_and]
      rw [List.chain'_cons']
      refine ⟨?_, (ih b).2⟩
      intro y hy
      rw [(ih b).1] at hy
      simp at hy
      subst hy
      exact h

theorem collapseRuns_chain (l : List String) :
    List.Chain' (fun x y => x ≠ y) (collapseRuns l) := by
  cases l with
  | nil => simp [collapseRuns]
  | cons a rest => exact (collapseRunsFrom_chain rest a).2

/-- C25: the actors named by the actor switches of `convertToTemplateCalls`
are the actors of the calls with consecutive duplicates collapsed; no two
successive switches name the same actor, and the output of a non-empty call
list begins with the switch to the actor of its first call. -/
theorem switchActors_collapsed (calls : List ParsedCall) :
    switchActors (convertToTemplateCalls calls) =
        collapseRuns (calls.map (fun c => mapAddressToActor c.Src)) ∧
      List.Chain' (fun x y => x ≠ y) (switchActors (convertToTemplateCalls calls)) ∧
      (∀ call rest, calls = call :: rest →
        ∃ out, convertToTemplateCalls calls =
          (Instruction.ActorSwitch (mapAddressToActor call.Src)).toTemplateCall :: out) := by
  refine ⟨switchActors_convert calls, ?_, ?_⟩
  · rw [switchActors_convert]
    exact collapseRuns_chain _
  · intro call rest hc
    subst hc
    rw [convertToTemplateCalls_eq]
    have h : some (mapAddressToActor call.Src) ≠ none := by simp
    refine ⟨(callBody call ++ sequenceFrom (some (mapAddressToActor call.Src)) rest).map
      Instruction.toTemplateCall, ?_⟩
    simp [sequenceFrom, sequenceBlock]

/-! ## Claims on `ProcessFiles`, `ParseReproducerFile` and the logger -/

theorem parsesToCalls_iff (parse : String → List ParsedCall × Option String) (file : FileInfo) :
    parsesToCalls parse file = true ↔
      (parse file.Path).2 = none ∧ (parse file.Path).1 ≠ [] := by
  simp [parsesToCalls, Option.isNone_iff_eq_none, List.isEmpty_iff]

theorem ProcessFilesFrom_good (parse : String → List ParsedCall × Option String)
    (file : FileInfo) (rest : List FileInfo) (allReplays : List ReplayGroup)
    (log : ProcessorLogger) (h : parsesToCalls parse file = true) :
    ∃ testName lastFunction callCount,
      ProcessFilesFrom parse (file :: rest) allReplays log =
        ProcessFilesFrom parse rest (allReplays ++ [groupOf parse file])
          ((log.LogFileStart file.Path).LogFileSuccess file.Path testName lastFunction
            callCount) := by
  obtain ⟨herr, hcalls⟩ := (parsesToCalls_iff parse file).mp h
  cases hp : parse file.Path with
  | mk calls err =>
    rw [hp] at herr hcalls
    simp only at herr hcalls
    subst herr
    have hlen : ¬ calls.length = 0 := by
      intro h0
      exact hcalls (List.length_eq_zero.mp h0)
    refine ⟨if (GenerateTestFunctionName file.Path "" calls).2 ≠ "" then
        "test_replay_" ++ (GenerateTestFunctionName file.Path "" calls).2 else "test_replay",
      (GenerateTestFunctionName file.Path "" calls).2, calls.length, ?_⟩
    simp only [ProcessFilesFrom, hp, hlen, if_false, groupOf]

theorem ProcessFilesFrom_bad (parse : String → List ParsedCall × Option String)
    (file : FileInfo) (rest : List FileInfo) (allReplays : List ReplayGroup)
    (log : ProcessorLogger) (h : parsesToCalls parse file = false) :
    ∃ err,
      ProcessFilesFrom parse (file :: rest) allReplays log =
        ProcessFilesFrom parse rest allReplays
          ((log.LogFileStart file.Path).LogFileFailure file.Path err) := by
  have hn : ¬ ((parse file.Path).2 = none ∧ (parse file.Path).1 ≠ []) := by
    rw [← parsesToCalls_iff, h]
    simp
  cases hp : parse file.Path with
  | mk calls err =>
    rw [hp] at hn
    cases err with
    | some e =>
      exact ⟨e, by simp only [ProcessFilesFrom, hp]⟩
    | none =>
      have hnil : calls = [] := by
        by_contra hne
        exact hn ⟨rfl, hne⟩
      subst hnil
      exact ⟨"no valid calls found", by simp [ProcessFilesFrom, hp]⟩

theorem ProcessFilesFrom_groups (parse : String → List ParsedCall × Option String) :
    ∀ (files : List FileInfo) (allReplays : List ReplayGroup) (log : ProcessorLogger),
      (ProcessFilesFrom parse files allReplays log).1 =
        allReplays ++ (files.filter (parsesToCalls parse)).map (groupOf parse) := by
  intro files
  induction files with
  | nil => intro allReplays log; simp [ProcessFilesFrom]
  | cons file rest ih =>
    intro allReplays log
    by_cases h : parsesToCalls parse file = true
    · obtain ⟨t, l, c, hstep⟩ := ProcessFilesFrom_good parse file rest allReplays log h
      rw [hstep, ih]
      simp [h]
    · have h' : parsesToCalls parse file = false := by simpa using h
      obtain ⟨e, hstep⟩ := ProcessFilesFrom_bad parse file rest allReplays log h'
      rw [hstep, ih]
      simp [h']

theorem ProcessFilesFrom_stats (parse : String → List ParsedCall × Option String) :
    ∀ (files : List FileInfo) (allReplays : List ReplayGroup) (log : ProcessorLogger),
      (ProcessFilesFrom parse files allReplays log).2.stats.TotalFiles =
          log.stats.TotalFiles + files.length ∧
        (ProcessFilesFrom parse files allReplays log).2.stats.SuccessCount =
          log.stats.SuccessCount + (files.filter (parsesToCalls parse)).length ∧
        (ProcessFilesFrom parse files allReplays log).2.stats.FailureCount =
          log.stats.FailureCount +
            (files.filter (fun f => !parsesToCalls parse f)).length := by
  intro files
  induction files with
  | nil => intro allReplays log; simp [ProcessFilesFrom]
  | cons file rest ih =>
    intro allReplays log
    by_cases h : parsesToCalls parse file = true
    · obtain ⟨t, l, c, hstep⟩ := ProcessFilesFrom_good parse file rest allReplays log h
      rw [hstep]
      obtain ⟨h1, h2, h3⟩ := ih (allReplays ++ [groupOf parse file])
        ((log.LogFileStart file.Path).LogFileSuccess file.Path t l c)
      rw [h1, h2, h3]
      simp only [ProcessorLogger.LogFileStart, ProcessorLogger.LogFileSuccess, h,
        List.filter_cons, if_true, List.length_cons, Bool.not_true, Bool.false_eq_true,
        if_false]
      push_cast
      refine ⟨?_, ?_, ?_⟩ <;> first | trivial | omega
    · have h' : parsesToCalls parse file = false := by simpa using h
      obtain ⟨e, hstep⟩ := ProcessFilesFrom_bad parse file rest allReplays log h'
      rw [hstep]
      obtain ⟨h1, h2, h3⟩ := ih allReplays
        ((log.LogFileStart file.Path).LogFileFailure file.Path e)
      rw [h1, h2, h3]
      simp only [ProcessorLogger.LogFileStart, ProcessorLogger.LogFileFailure, h',
        List.filter_cons, if_true, List.length_cons, Bool.not_false, Bool.false_eq_true,
        if_false]
      push_cast
      refine ⟨?_, ?_, ?_⟩ <;> first | trivial | omega

theorem ProcessFilesRun_groups (parse : String → List ParsedCall × Option String)
    (files : List FileInfo) :
    (ProcessFilesRun parse files).1 =
      (files.filter (parsesToCalls parse)).map (groupOf parse) := by
  simp [ProcessFilesRun, ProcessFilesFrom_groups]

theorem ProcessFiles_ok_iff (parse : String → List ParsedCall × Option String)
    (files : List FileInfo) :
    (ProcessFiles parse files).2 = none ↔ ∃ f ∈ files, parsesToCalls parse f = true := by
  unfold ProcessFiles
  simp only [ProcessFilesRun_groups]
  by_cases h : ((files.filter (parsesToCalls parse)).map (groupOf parse)).length = 0
  · simp only [h, if_true]
    have hnil : files.filter (parsesToCalls parse) = [] := by
      simpa using h
    rw [List.filter_eq_nil_iff] at hnil
    constructor
    · intro hc; simp at hc
    · rintro ⟨f, hf, hg⟩
      exact absurd hg (hnil f hf)
  · simp only [h, if_false, true_iff]
    have hne : files.filter (parsesToCalls parse) ≠ [] := by
      intro hnil
      apply h
      simp [hnil]
    obtain ⟨f, hf⟩ := List.exists_mem_of_ne_nil _ hne
    rw [List.mem_filter] at hf
    exact ⟨f, hf.1, hf.2⟩

/-- C22: `ProcessFiles` returns an error exactly when no input file parses
without error to a non-empty call list; the logger counts as successes the
files that do and as failures all the others, among them the files that parse
without error to zero calls. -/
theorem ProcessFiles_error_iff (parse : String → List ParsedCall × Option String)
    (files : List FileInfo) :
    ((ProcessFiles parse files).2 ≠ none ↔
        ¬ ∃ f ∈ files, (parse f.Path).2 = none ∧ (parse f.Path).1 ≠ []) ∧
      (ProcessFilesRun parse files).2.GetStats.SuccessCount =
        (files.filter (fun f => (parse f.Path).2.isNone && !(parse f.Path).1.isEmpty)).length ∧
      (ProcessFilesRun parse files).2.GetStats.FailureCount =
        (files.filter (fun f => (parse f.Path).2.isSome || (parse f.Path).1.isEmpty)).length := by
  refine ⟨?_, ?_, ?_⟩
  · rw [Ne, ProcessFiles_ok_iff]
    simp only [parsesToCalls_iff]
  · have h := (ProcessFilesFrom_stats parse files [] NewProcessorLogger).2.1
    simpa [ProcessFilesRun, ProcessorLogger.GetStats, NewProcessorLogger, parsesToCalls] using h
  · have h := (ProcessFilesFrom_stats parse files [] NewProcessorLogger).2.2
    have hf : (fun f => !parsesToCalls parse f) =
        (fun f : FileInfo => (parse f.Path).2.isSome || (parse f.Path).1.isEmpty) := by
      funext f
      cases h2 : (parse f.Path).2 <;> cases h1 : (parse f.Path).1 <;>
        simp [parsesToCalls, h1, h2]
    rw [hf] at h
    simpa [ProcessFilesRun, ProcessorLogger.GetStats, NewProcessorLogger] using h

/-- C23: when `ProcessFiles` succeeds, the groups are, in input order, those
of the files that parse without error to at least one call, each with the
path of its file and the parsed calls; a failing file changes no group of the
other files. -/
theorem ProcessFiles_groups (parse : String → List ParsedCall × Option String)
    (files : List FileInfo) (h : (ProcessFiles parse files).2 = none) :
    (ProcessFiles parse files).1 =
        (files.filter (fun f => (parse f.Path).2.isNone && !(parse f.Path).1.isEmpty)).map
          (fun f => { TestName := "", Calls := (parse f.Path).1, FileName := f.Path }) ∧
      ∀ (pre post : List FileInfo) (bad : FileInfo), files = pre ++ bad :: post →
        ((parse bad.Path).2 ≠ none ∨ (parse bad.Path).1 = []) →
        (ProcessFilesRun parse files).1 = (ProcessFilesRun parse (pre ++ post)).1 := by
  constructor
  · have hlen : ¬ (ProcessFilesRun parse files).1.length = 0 := by
      intro h0
      unfold ProcessFiles at h
      simp [h0] at h
    have hp : (ProcessFiles parse files).1 = (ProcessFilesRun parse files).1 := by
      unfold ProcessFiles
      simp [hlen]
    rw [hp, ProcessFilesRun_groups]
    rfl
  · intro pre post bad hfiles hbad
    have hb : parsesToCalls parse bad = false := by
      cases hg : parsesToCalls parse bad with
      | false => rfl
      | true =>
        obtain ⟨h1, h2⟩ := (parsesToCalls_iff parse bad).mp hg
        rcases hbad with hbad | hbad
        · exact absurd h1 hbad
        · exact absurd hbad h2
    rw [ProcessFilesRun_groups, ProcessFilesRun_groups, hfiles]
    simp [List.filter_append, List.filter_cons, hb]

theorem ProcessFiles_groups_witness :
    (ProcessFiles sampleParse sampleFiles).2 = none ∧
      (ProcessFiles sampleParse sampleFiles).1 =
        (sampleFiles.filter
            (fun f => (sampleParse f.Path).2.isNone && !(sampleParse f.Path).1.isEmpty)).map
          (fun f => { TestName := "", Calls := (sampleParse f.Path).1, FileName := f.Path }) ∧
      ∀ (pre post : List FileInfo) (bad : FileInfo), sampleFiles = pre ++ bad :: post →
        ((sampleParse bad.Path).2 ≠ none ∨ (sampleParse bad.Path).1 = []) →
        (ProcessFilesRun sampleParse sampleFiles).1 =
          (ProcessFilesRun sampleParse (pre ++ post)).1 :=
  ⟨by decide, ProcessFiles_groups sampleParse sampleFiles (by decide)⟩

theorem decodeElements_error : ∀ (elems : List (Except String Transaction)) (msg : String),
    Except.error msg ∈ elems → ∃ e, decodeElements elems = .error e := by
  intro elems
  induction elems with
  | nil => intro msg h; simp at h
  | cons x rest ih =>
    intro msg h
    cases x with
    | error m => exact ⟨m, rfl⟩
    | ok tx =>
      have hrest : Except.error msg ∈ rest := by
        rcases List.mem_cons.mp h with h | h
        · cases h
        · exact h
      obtain ⟨e, he⟩ := ih msg hrest
      exact ⟨e, by simp [decodeElements, he]⟩

/-- C24, amended: `ParseReproducerFile` fails, returning no call list, for
every file content that is not valid JSON, or whose top-level value is an
object, a string, a number or a boolean, or is an array with an element that
does not decode into a transaction. -/
theorem ParseReproducerFile_fails (env : GoEnv) (fs : String → FileContent)
    (filepath : String) (doc : JSONDocument) (hfs : fs filepath = .data doc)
    (hdoc : (∃ msg, doc = .invalid msg) ∨ (∃ kind, doc = .other kind) ∨
      (∃ elems msg, doc = .array elems ∧ Except.error msg ∈ elems)) :
    (ParseReproducerFile env fs filepath).2 ≠ none ∧
      (ParseReproducerFile env fs filepath).1 = [] := by
  unfold ParseReproducerFile
  rw [hfs]
  rcases hdoc with ⟨msg, rfl⟩ | ⟨kind, rfl⟩ | ⟨elems, msg, rfl, hmem⟩
  · simp [unmarshalReproducer]
  · simp [unmarshalReproducer]
  · obtain ⟨e, he⟩ := decodeElements_error elems msg hmem
    simp [unmarshalReproducer, he]

theorem ParseReproducerFile_fails_witness :
    (ParseReproducerFile GoEnv.amd64 sampleFs "object.json").2 ≠ none ∧
      (ParseReproducerFile GoEnv.amd64 sampleFs "object.json").1 = [] :=
  ParseReproducerFile_fails GoEnv.amd64 sampleFs "object.json" (.other "object") rfl
    (Or.inr (Or.inl ⟨"object", rfl⟩))

/-- C24, counterexample: a file that holds the JSON value `null`, which is no
array, decodes as the nil reproducer: `ParseReproducerFile` returns no error
and the empty call list. -/
theorem ParseReproducerFile_null_succeeds :
    sampleFs "null.json" = .data .null ∧
      ParseReproducerFile GoEnv.amd64 sampleFs "null.json" = ([], none) := by
  refine ⟨rfl, by decide⟩

theorem filter_split_length (parse : String → List ParsedCall × Option String) :
    ∀ files : List FileInfo,
      (files.filter (parsesToCalls parse)).length +
        (files.filter (fun f => !parsesToCalls parse f)).length = files.length := by
  intro files
  induction files with
  | nil => simp
  | cons f rest ih =>
    by_cases hg : parsesToCalls parse f = true
    · simp [List.filter_cons, hg]; omega
    · have hg' : parsesToCalls parse f = false := by simpa using hg
      simp [List.filter_cons, hg']; omega

theorem logger_fold_consistent : ∀ (ops : List LogOp) (l : ProcessorLogger),
    (l.stats.SuccessTests.length : Int) = l.stats.SuccessCount →
    (l.stats.FailedFiles.length : Int) = l.stats.FailureCount →
    ((ops.foldl LogOp.apply l).stats.SuccessTests.length : Int) =
        (ops.foldl LogOp.apply l).stats.SuccessCount ∧
      ((ops.foldl LogOp.apply l).stats.FailedFiles.length : Int) =
        (ops.foldl LogOp.apply l).stats.FailureCount := by
  intro ops
  induction ops with
  | nil => intro l h1 h2; exact ⟨h1, h2⟩
  | cons op rest ih =>
    intro l h1 h2
    rw [List.foldl_cons]
    apply ih
    · cases op <;>
        simp [LogOp.apply, ProcessorLogger.LogFileStart, ProcessorLogger.LogFileSuccess,
          ProcessorLogger.LogFileFailure, h1]
    · cases op <;>
        simp [LogOp.apply, ProcessorLogger.LogFileStart, ProcessorLogger.LogFileSuccess,
          ProcessorLogger.LogFileFailure, h2]

/-- C28: from `NewProcessorLogger`, every sequence of `LogFileStart`,
`LogFileSuccess` and `LogFileFailure` keeps `len(SuccessTests) = SuccessCount`
and `len(FailedFiles) = FailureCount`; when the loop of `ProcessFiles` has run
over its input, `TotalFiles = SuccessCount + FailureCount` is the number of
input files. -/
theorem logger_statistics (ops : List LogOp)
    (parse : String → List ParsedCall × Option String) (files : List FileInfo) :
    (((ops.foldl LogOp.apply NewProcessorLogger).stats.SuccessTests.length : Int) =
        (ops.foldl LogOp.apply NewProcessorLogger).stats.SuccessCount ∧
      ((ops.foldl LogOp.apply NewProcessorLogger).stats.FailedFiles.length : Int) =
        (ops.foldl LogOp.apply NewProcessorLogger).stats.FailureCount) ∧
      (ProcessFilesRun parse files).2.GetStats.TotalFiles = files.length ∧
      (ProcessFilesRun parse files).2.GetStats.SuccessCount +
        (ProcessFilesRun parse files).2.GetStats.FailureCount = files.length := by
  refine ⟨logger_fold_consistent ops NewProcessorLogger rfl rfl, ?_, ?_⟩
  · have h := (ProcessFilesFrom_stats parse files [] NewProcessorLogger).1
    simpa [ProcessFilesRun, ProcessorLogger.GetStats, NewProcessorLogger] using h
  · obtain ⟨_, h2, h3⟩ := ProcessFilesFrom_stats parse files [] NewProcessorLogger
    have hsplit := filter_split_length parse files
    simp only [ProcessFilesRun, ProcessorLogger.GetStats]
    rw [h2, h3]
    simp only [NewProcessorLogger]
    omega

end Runes
